import Mathlib

/-!
# stretcher: the deployment pipeline of `manifest.go`

A shallow embedding of `manifest.go` (package `stretcher`) and theorems about
checksum selection, the hashing copier, the hook runner and `Deploy`.

Conventions of the embedding.

* A Go `string` and a Go `[]byte` are byte sequences: `List UInt8`. `len(s)`
  is `List.length`.
* A Go `error` is `Option Error`; `none` is `nil`.
* Library code that is not part of the repository (the four digest
  algorithms, the Unicode branch of `strings.ToLower`) and the helper
  `getURL`, which is defined outside `manifest.go`, are parameters.
* The operating system (temporary names, `chdir`, child processes) is an
  oracle `Env` whose answers may depend on everything that happened so far;
  this includes the outcome of `os.Remove` and `os.RemoveAll`. Every call
  returns, so a source that never ends and a child process that hangs are not
  runs of the model.
-/

namespace Stretcher

/-- A Go `byte`. -/
abbrev Byte := UInt8

/-- A Go `string`: an immutable sequence of bytes. -/
abbrev GoString := List Byte

/-- The bytes of an ASCII string literal, to write Go string constants. -/
def str (s : String) : GoString := s.data.map (fun c => c.toNat.toUInt8)

/-- Non-nil values of the Go `error` interface that can flow through
`manifest.go`. -/
inductive Error where
  /-- The sentinel `io.EOF`. -/
  | EOF : Error
  /-- The sentinel `io.ErrShortWrite`. -/
  | ErrShortWrite : Error
  /-- An error value produced outside `manifest.go`: by a reader, a writer,
  the operating system or a child process. -/
  | external (code : Nat) : Error
  /-- The value `fmt.Errorf("checksum must be md5, sha1, sha256, sha512 hex string.")`
  of `newHash`. -/
  | unsupportedChecksum : Error
  /-- The value `fmt.Errorf("Checksum mismatch. expected:%s got:%s", m.CheckSum, sum)`. -/
  | checksumMismatch (expected got : GoString) : Error
  /-- The value `fmt.Errorf("Get src failed:", err)`. -/
  | getSrcFailed (cause : Error) : Error
  /-- The value `fmt.Errorf("failed:", comm, err)` of the two hook loops. -/
  | commandFailed (comm : GoString) (cause : Error) : Error
  deriving DecidableEq, Repr

/-- The type `Commands`. -/
structure Commands where
  Pre : List GoString
  Post : List GoString
  deriving DecidableEq, Repr

/-- The type `Manifest`. -/
structure Manifest where
  Src : GoString
  CheckSum : GoString
  Dest : GoString
  Commands : Commands
  deriving DecidableEq, Repr

/-! ## Library functions -/

/-- The four digest algorithms `newHash` can select. -/
inductive Algorithm where
  | md5 | sha1 | sha256 | sha512
  deriving DecidableEq, Repr

/-- The library code `manifest.go` calls and does not define: the digest
functions of `crypto/md5`, `crypto/sha1`, `crypto/sha256`, `crypto/sha512`
with their documented output sizes, and `strings.Map(unicode.ToLower, s)`,
the branch `strings.ToLower` takes for a string with a non-ASCII byte. -/
structure StdLib where
  digest : Algorithm → List Byte → List Byte
  md5_size : ∀ x, (digest .md5 x).length = 16
  sha1_size : ∀ x, (digest .sha1 x).length = 20
  sha256_size : ∀ x, (digest .sha256 x).length = 32
  sha512_size : ∀ x, (digest .sha512 x).length = 64
  mapUnicodeLower : GoString → GoString

/-- A value of the interface `hash.Hash`: the algorithm and the bytes fed to
it so far, in order. `Write` appends, `Sum(nil)` is the digest of all bytes
written so far. -/
structure Hash where
  alg : Algorithm
  fed : List Byte
  deriving DecidableEq, Repr

/-- The call `io.WriteString(h, s)`: feeds the bytes of `s` to `h`. -/
def Hash.WriteString (h : Hash) (s : List Byte) : Hash :=
  { h with fed := h.fed ++ s }

/-- The call `h.Sum(nil)`. -/
def Hash.Sum (lib : StdLib) (h : Hash) : List Byte :=
  lib.digest h.alg h.fed

/-- The digit table `"0123456789abcdef"` of the verb `%x`. -/
def ldigits : List Byte :=
  [48, 49, 50, 51, 52, 53, 54, 55, 56, 57, 97, 98, 99, 100, 101, 102]

/-- One digit of `%x`: the entry of `ldigits` for a value below 16. -/
def hexDigit (n : Nat) : Byte := ldigits.getD n 48

/-- The call `fmt.Sprintf("%x", b)` for a byte slice: two lower-case
hexadecimal digits per byte, high nibble first. -/
def sprintfHex : List Byte → GoString
  | [] => []
  | b :: bs => hexDigit (b.toNat / 16) :: hexDigit (b.toNat % 16) :: sprintfHex bs

/-- The ASCII branch of `strings.ToLower` on one byte: `'A'..'Z'` moves to
`'a'..'z'`, every other byte stays. -/
def lowerByte (c : Byte) : Byte :=
  if 65 ≤ c ∧ c ≤ 90 then c + 32 else c

/-- The test `c < utf8.RuneSelf` of `strings.ToLower` over the whole string. -/
def isASCII (s : GoString) : Bool := s.all (fun c => c < 128)

/-- The function `strings.ToLower`: an all-ASCII string is lower-cased byte
by byte; any other string goes through `strings.Map(unicode.ToLower, s)`. -/
def ToLower (lib : StdLib) (s : GoString) : GoString :=
  if isASCII s then s.map lowerByte else lib.mapUnicodeLower s

/-- First index of the byte `c` in `s`. -/
def indexByte (c : Byte) : List Byte → Option Nat
  | [] => none
  | x :: xs => if x = c then some 0 else (indexByte c xs).map (· + 1)

/-- The call `strings.LastIndex(s, sep)` for a one-byte `sep`: the index of
the last occurrence of the byte, found scanning from the end, or `-1`. -/
def LastIndex (s : GoString) (c : Byte) : Int :=
  match indexByte c s.reverse with
  | some i => (s.length : Int) - 1 - (i : Int)
  | none => -1

/-! ## `newHash` -/

/-- The method `Manifest.newHash`: the switch on `len(m.CheckSum)`. -/
def newHash (m : Manifest) : Except Error Hash :=
  match m.CheckSum.length with
  | 32 => .ok ⟨.md5, []⟩
  | 40 => .ok ⟨.sha1, []⟩
  | 64 => .ok ⟨.sha256, []⟩
  | 128 => .ok ⟨.sha512, []⟩
  | _ => .error .unsupportedChecksum

/-! ## Readers and writers -/

/-- What one call `src.Read(buf)` returns: the bytes `buf[0:nr]` and `er`.
A reader that keeps the contract of `io.Reader` returns at most `len(buf)`,
that is 32 KiB; nothing below depends on the bound. -/
structure ReadResult where
  data : List Byte
  err : Option Error
  deriving DecidableEq, Repr

/-- An `io.Reader` as seen by its only caller: the results of its successive
`Read` calls. Every `Read` after the last listed one returns `(0, io.EOF)`,
as a file or a response body does at its end. -/
abbrev Reader := List ReadResult

/-- What one call `dst.Write(p)` returns: `nw` and `ew`. -/
structure WriteResult where
  nw : Int
  err : Option Error
  deriving DecidableEq, Repr

/-- An `io.Writer`: the result of a `Write`, given the slices passed to the
earlier `Write` calls, in order, and the slice passed now. -/
abbrev Writer := List (List Byte) → List Byte → WriteResult

/-- One I/O call made by `copyAndCalcHash`, with what it returned. -/
inductive IOEvent where
  | read (r : ReadResult) : IOEvent
  | write (p : List Byte) (r : WriteResult) : IOEvent
  deriving DecidableEq, Repr

/-- The slices passed to `dst.Write` so far, in order. -/
def writesOf : List IOEvent → List (List Byte)
  | [] => []
  | .read _ :: es => writesOf es
  | .write p _ :: es => p :: writesOf es

/-- The bytes the destination received: of each `Write`, the first `nw`. -/
def destBytes : List IOEvent → List Byte
  | [] => []
  | .read _ :: es => destBytes es
  | .write p r :: es => p.take r.nw.toNat ++ destBytes es

/-- The bytes the source delivered: the data of each `Read`. -/
def readBytes : List IOEvent → List Byte
  | [] => []
  | .read r :: es => r.data ++ readBytes es
  | .write _ _ :: es => readBytes es

/-- The local variables of the loop of `copyAndCalcHash` together with the
record of the I/O calls made. `written` is an `int64`; it is kept unbounded
here, a wrap needs a transfer of 2^63 bytes. -/
structure CopyState where
  h : Hash
  written : Int
  err : Option Error
  io : List IOEvent
  deriving DecidableEq, Repr

/-- The body of `if nr > 0 { ... }`: feed the hash, write, count. The `Bool`
is `true` when the body executed `break`. -/
def writeChunk (dst : Writer) (p : List Byte) (st : CopyState) : CopyState × Bool :=
  let h := st.h.WriteString p
  let r := dst (writesOf st.io) p
  let written := if r.nw > 0 then st.written + r.nw else st.written
  let st1 : CopyState := { h := h, written := written, err := st.err, io := st.io ++ [.write p r] }
  match r.err with
  | some ew => ({ st1 with err := some ew }, true)
  | none =>
    if (p.length : Int) ≠ r.nw then ({ st1 with err := some .ErrShortWrite }, true)
    else (st1, false)

/-- The tail of one loop iteration: the two tests on `er`. The `Bool` is
`true` when the loop is left. -/
def checkReadErr (er : Option Error) (st : CopyState) : CopyState × Bool :=
  match er with
  | some .EOF => (st, true)
  | some e => ({ st with err := some e }, true)
  | none => (st, false)

/-- The loop `for { ... }` of `copyAndCalcHash`, one iteration per `Read`. -/
def copyLoop (dst : Writer) : Reader → CopyState → CopyState
  | [], st =>
    -- a Read past the end: nr = 0, er = io.EOF
    { st with io := st.io ++ [.read ⟨[], some .EOF⟩] }
  | r :: rest, st =>
    let st0 : CopyState := { st with io := st.io ++ [.read r] }
    let (st1, brk) := if r.data.length > 0 then writeChunk dst r.data st0 else (st0, false)
    if brk then st1
    else
      let (st2, stop) := checkReadErr r.err st1
      if stop then st2 else copyLoop dst rest st2

/-- What `copyAndCalcHash` returns, with the record of its I/O calls. -/
structure CopyResult where
  written : Int
  sum : GoString
  err : Option Error
  io : List IOEvent
  deriving DecidableEq, Repr

/-- The method `Manifest.copyAndCalcHash`. -/
def copyAndCalcHash (lib : StdLib) (m : Manifest) (dst : Writer) (src : Reader) : CopyResult :=
  match newHash m with
  | .error e => { written := 0, sum := [], err := some e, io := [] }
  | .ok h =>
    let st := copyLoop dst src { h := h, written := 0, err := none, io := [] }
    let s := sprintfHex (st.h.Sum lib)
    { written := st.written, sum := s, err := st.err, io := st.io }

/-! ## The operating system -/

/-- The part of `Deploy` an external command belongs to. -/
inductive Stage where
  | pre | extract | sync | post
  deriving DecidableEq, Repr

/-- One call `exec.Command(name, args...).CombinedOutput()` that was made,
with the `err` it returned. -/
structure Cmd where
  stage : Stage
  name : GoString
  args : List GoString
  err : Option Error
  deriving DecidableEq, Repr

/-- The state `Deploy` acts on: the temporary paths that exist, the working
directory of the process, the external commands run so far (oldest first),
the temporary paths created so far (oldest first) and the calls of
`os.Remove` and `os.RemoveAll` made so far, each with the error it returned
(oldest first). -/
structure World where
  temps : List GoString
  cwd : GoString
  cmds : List Cmd
  created : List GoString
  removals : List (GoString × Option Error)
  deriving DecidableEq, Repr

/-- Everything `Deploy` asks of its surroundings. Each answer may depend on
the state at the time of the call, so on all that happened before.
`getURL` is the helper of the package that opens `m.Src`; `TempFile` also
gives the behaviour of the file as a writer. -/
structure Env where
  getURL : GoString → Except Error Reader
  TempFile : World → Except Error (GoString × Writer)
  TempDir : World → Except Error GoString
  Getwd : World → Option Error
  Chdir : World → GoString → Option Error
  Command : World → GoString → List GoString → Option Error
  Remove : World → GoString → Option Error
  RemoveAll : World → GoString → Option Error

/-- A successful `ioutil.TempFile` or `ioutil.TempDir`: the path exists now. -/
def World.create (w : World) (path : GoString) : World :=
  { w with temps := w.temps ++ [path], created := w.created ++ [path] }

/-- A call of `os.Remove(path)` or `os.RemoveAll(path)` that returned `err`:
the call is recorded; the path exists no more when `err` is nil, and is still
there when the call failed. -/
def World.removal (w : World) (path : GoString) (err : Option Error) : World :=
  match err with
  | none =>
    { w with temps := w.temps.filter (fun p => p ≠ path),
             removals := w.removals ++ [(path, none)] }
  | some e => { w with removals := w.removals ++ [(path, some e)] }

/-- The deferred call `os.Remove(tmp.Name())`: the surroundings decide whether
it succeeds, and the error it returns is dropped. -/
def Remove (env : Env) (path : GoString) (w : World) : World :=
  w.removal path (env.Remove w path)

/-- The deferred call `os.RemoveAll(dir)`: the surroundings decide whether it
succeeds, and the error it returns is dropped. -/
def RemoveAll (env : Env) (path : GoString) (w : World) : World :=
  w.removal path (env.RemoveAll w path)

/-- The state after the external commands `cs` were run, in this order. -/
def World.ran (w : World) (cs : List Cmd) : World :=
  { w with cmds := w.cmds ++ cs }

/-- A successful `os.Chdir(dir)`. -/
def World.chdir (w : World) (dir : GoString) : World :=
  { w with cwd := dir }

/-- The call `exec.Command(name, args...).CombinedOutput()`: asks the
surroundings for the outcome and records the call. -/
def runCommand (env : Env) (stage : Stage) (name : GoString) (args : List GoString)
    (w : World) : Option Error × World :=
  let err := env.Command w name args
  (err, w.ran [⟨stage, name, args, err⟩])

/-- The arguments of `exec.Command("sh", "-c", comm)`. -/
def shArgs (comm : GoString) : List GoString := [str "-c", comm]

/-- The arguments of `exec.Command("tar", "xf", tmp.Name())`. -/
def tarArgs (tmpName : GoString) : List GoString := [str "xf", tmpName]

/-- The loop shared, word for word, by `InvokePreDeployCommands` and
`InvokePostDeployCommands`: `sh -c comm` for each command, return at the
first `err != nil`. -/
def invokeCommands (env : Env) (stage : Stage) : List GoString → World → Option Error × World
  | [], w => (none, w)
  | comm :: rest, w =>
    match runCommand env stage (str "sh") (shArgs comm) w with
    | (some e, w1) => (some (.commandFailed comm e), w1)
    | (none, w1) => invokeCommands env stage rest w1

/-- The method `Manifest.InvokePreDeployCommands`. -/
def InvokePreDeployCommands (env : Env) (m : Manifest) (w : World) : Option Error × World :=
  invokeCommands env .pre m.Commands.Pre w

/-- The method `Manifest.InvokePostDeployCommands`. -/
def InvokePostDeployCommands (env : Env) (m : Manifest) (w : World) : Option Error × World :=
  invokeCommands env .post m.Commands.Post w

/-- The destination argument of rsync: `to := m.Dest`, with `"/"` appended
when `strings.LastIndex(to, "/") != len(to)-1`. -/
def rsyncTo (m : Manifest) : GoString :=
  if LastIndex m.Dest 47 ≠ (m.Dest.length : Int) - 1 then m.Dest ++ str "/" else m.Dest

/-- The source argument of rsync: `from := dir + "/"`. -/
def rsyncFrom (dir : GoString) : GoString := dir ++ str "/"

/-- The arguments of `exec.Command("rsync", "-av", "--delete", from, to)`. -/
def rsyncArgs (m : Manifest) (dir : GoString) : List GoString :=
  [str "-av", str "--delete", rsyncFrom dir, rsyncTo m]

/-- The value of `cwd` after `cwd, _ := os.Getwd()`: the working directory,
or the empty string when `Getwd` fails. -/
def savedCwd (env : Env) (w : World) : GoString :=
  match env.Getwd w with
  | none => w.cwd
  | some _ => []

/-- The lines of `Deploy` after `defer os.RemoveAll(dir)`: the pre-deploy
commands, chdir, tar, rsync, chdir back, the post-deploy commands. -/
def deployInDir (env : Env) (m : Manifest) (tmpName dir : GoString) (w : World) :
    Option Error × World :=
  match InvokePreDeployCommands env m w with
  | (some e, w1) => (some e, w1)
  | (none, w1) =>
    let cwd := savedCwd env w1
    match env.Chdir w1 dir with
    | some e => (some e, w1)
    | none =>
      match runCommand env .extract (str "tar") (tarArgs tmpName) (w1.chdir dir) with
      | (some e, w3) => (some e, w3)
      | (none, w3) =>
        match runCommand env .sync (str "rsync") (rsyncArgs m dir) w3 with
        | (some e, w4) => (some e, w4)
        | (none, w4) =>
          match env.Chdir w4 cwd with
          | some e => (some e, w4)
          | none =>
            match InvokePostDeployCommands env m (w4.chdir cwd) with
            | (some e, w6) => (some e, w6)
            | (none, w6) => (none, w6)

/-- The lines of `Deploy` after `defer os.Remove(tmp.Name())`: copy and hash,
compare the checksum, create the temporary directory; `os.RemoveAll(dir)`
runs when the rest returns. -/
def deployStaged (lib : StdLib) (env : Env) (m : Manifest) (src : Reader)
    (tmpName : GoString) (tmp : Writer) (w : World) : Option Error × World :=
  let r := copyAndCalcHash lib m tmp src
  match r.err with
  | some e => (some e, w)
  | none =>
    if m.CheckSum.length > 0 ∧ r.sum ≠ ToLower lib m.CheckSum then
      (some (.checksumMismatch m.CheckSum r.sum), w)
    else
      match env.TempDir w with
      | .error e => (some e, w)
      | .ok dir =>
        let (err, w1) := deployInDir env m tmpName dir (w.create dir)
        (err, RemoveAll env dir w1)

/-- The method `Manifest.Deploy`. The deferred calls run, last registered
first, when the lines after their `defer` return; `src.Close()` and
`tmp.Close()` leave the state as it is. -/
def Deploy (lib : StdLib) (env : Env) (m : Manifest) (w : World) : Option Error × World :=
  match env.getURL m.Src with
  | .error e => (some (.getSrcFailed e), w)
  | .ok src =>
    match env.TempFile w with
    | .error e => (some e, w)
    | .ok (tmpName, tmp) =>
      let (err, w1) := deployStaged lib env m src tmpName tmp (w.create tmpName)
      (err, Remove env tmpName w1)

/-! ## Definitions used to state the properties -/

/-- A stand-in standard library for evaluation. -/
def toyLib : StdLib where
  digest := fun a x => match a with
    | .md5 => List.replicate 16 (x.foldl (· + ·) 171)
    | .sha1 => List.replicate 20 (x.foldl (· + ·) 171)
    | .sha256 => List.replicate 32 (x.foldl (· + ·) 171)
    | .sha512 => List.replicate 64 (x.foldl (· + ·) 171)
  md5_size := by intro x; simp
  sha1_size := by intro x; simp
  sha256_size := by intro x; simp
  sha512_size := by intro x; simp
  mapUnicodeLower := fun s => s

def acceptAll : Writer := fun _ p => ⟨p.length, none⟩

/-- A writer that takes every slice in full. -/
def AcceptsAll (dst : Writer) : Prop := ∀ hist p, dst hist p = ⟨(p.length : Int), none⟩

/-- The error with which an I/O call makes the copy stop, if it does: a
`Write` that returned an error, a `Write` that took fewer bytes than it was
given, a `Read` that returned an error other than `io.EOF`. -/
def breakError : IOEvent → Option Error
  | .write p r =>
    match r.err with
    | some e => some e
    | none => if (p.length : Int) ≠ r.nw then some .ErrShortWrite else none
  | .read r =>
    match r.err with
    | some .EOF => none
    | some e => some e
    | none => none

/-- The shape of the last iteration of the copy loop: the calls made in it
and the value of `err` it leaves, `err0` being the value before. -/
def FinalShape (fin : List IOEvent) (err0 err1 : Option Error) : Prop :=
  (∃ rr, fin = [.read rr] ∧ rr.data = [] ∧
      ((rr.err = some .EOF ∧ err1 = err0) ∨ (∃ e, rr.err = some e ∧ e ≠ .EOF ∧ err1 = some e))) ∨
  (∃ rr wr e, fin = [.read rr, .write rr.data wr] ∧ rr.data ≠ [] ∧
      breakError (.write rr.data wr) = some e ∧ err1 = some e) ∨
  (∃ rr wr, fin = [.read rr, .write rr.data wr] ∧ rr.data ≠ [] ∧
      breakError (.write rr.data wr) = none ∧
      ((rr.err = some .EOF ∧ err1 = err0) ∨ (∃ e, rr.err = some e ∧ e ≠ .EOF ∧ err1 = some e)))

/-- The algorithm named for a supported checksum length: 32 is MD5, 40 is
SHA-1, 64 is SHA-256, 128 is SHA-512. -/
def algorithmOfLength (n : Nat) : Option Algorithm :=
  if n = 32 then some .md5
  else if n = 40 then some .sha1
  else if n = 64 then some .sha256
  else if n = 128 then some .sha512
  else none

/-- A manifest with a 32-character checksum, all `a`. -/
def manifest32 : Manifest :=
  { Src := str "file:///tmp/a.tar", CheckSum := List.replicate 32 97, Dest := str "/srv/app",
    Commands := { Pre := [str "true"], Post := [str "date"] } }

/-- A source whose first `Read` delivers three bytes together with an error
that is not `io.EOF`. -/
def brokenSource : Reader := [⟨[1, 2, 3], some (.external 7)⟩]

/-- The record of `sh -c comm` run in `stage` with outcome `err`. -/
def shCmd (stage : Stage) (err : Option Error) (comm : GoString) : Cmd :=
  ⟨stage, str "sh", shArgs comm, err⟩

/-- The record of `tar xf tmpName` with outcome `err`. -/
def tarCmd (tmpName : GoString) (err : Option Error) : Cmd :=
  ⟨.extract, str "tar", tarArgs tmpName, err⟩

/-- The record of `rsync -av --delete from to` with outcome `err`. -/
def rsyncCmd (m : Manifest) (dir : GoString) (err : Option Error) : Cmd :=
  ⟨.sync, str "rsync", rsyncArgs m dir, err⟩

/-- Every command of the list succeeds when the commands are run one after
the other from the state `w`. -/
def allSucceed (env : Env) (stage : Stage) : List GoString → World → Prop
  | [], _ => True
  | comm :: rest, w =>
    env.Command w (str "sh") (shArgs comm) = none ∧
      allSucceed env stage rest (w.ran [shCmd stage none comm])

/-- The state after every pre-deploy command succeeded. -/
def afterPre (m : Manifest) (w : World) : World :=
  w.ran (m.Commands.Pre.map (shCmd .pre none))

/-- The state after the chdir into the temporary directory. -/
def inDir (m : Manifest) (dir : GoString) (w : World) : World :=
  (afterPre m w).chdir dir

/-- The state after tar succeeded. -/
def afterTar (m : Manifest) (tmpName dir : GoString) (w : World) : World :=
  (inDir m dir w).ran [tarCmd tmpName none]

/-- The state after rsync succeeded. -/
def afterRsync (m : Manifest) (tmpName dir : GoString) (w : World) : World :=
  (inDir m dir w).ran [tarCmd tmpName none, rsyncCmd m dir none]

/-- The state after the chdir back to the saved working directory. -/
def restored (env : Env) (m : Manifest) (tmpName dir : GoString) (w : World) : World :=
  (afterRsync m tmpName dir w).chdir (savedCwd env (afterPre m w))

/-- Two ASCII strings are equal when letter case is ignored. -/
def equalFoldASCII (a b : GoString) : Prop := a.map lowerByte = b.map lowerByte

/-- Every stage of `Deploy` succeeded: the source opened, the temporary file
was created, the copy finished without error, the declared checksum,
lower-cased, equals the computed digest, the temporary directory was created,
every pre-deploy command succeeded, the chdir, tar and rsync succeeded, the
chdir back succeeded and every post-deploy command succeeded. Each outcome is
the one the surroundings give in the state the stage runs in. -/
def AllStagesSucceed (lib : StdLib) (env : Env) (m : Manifest) (w : World) : Prop :=
  ∃ src tmpName tmp dir,
    env.getURL m.Src = .ok src ∧
    env.TempFile w = .ok (tmpName, tmp) ∧
    (copyAndCalcHash lib m tmp src).err = none ∧
    (copyAndCalcHash lib m tmp src).sum = ToLower lib m.CheckSum ∧
    env.TempDir (w.create tmpName) = .ok dir ∧
    allSucceed env .pre m.Commands.Pre ((w.create tmpName).create dir) ∧
    env.Chdir (afterPre m ((w.create tmpName).create dir)) dir = none ∧
    env.Command (inDir m dir ((w.create tmpName).create dir)) (str "tar") (tarArgs tmpName) =
      none ∧
    env.Command (afterTar m tmpName dir ((w.create tmpName).create dir)) (str "rsync")
      (rsyncArgs m dir) = none ∧
    env.Chdir (afterRsync m tmpName dir ((w.create tmpName).create dir))
      (savedCwd env (afterPre m ((w.create tmpName).create dir))) = none ∧
    allSucceed env .post m.Commands.Post (restored env m tmpName dir ((w.create tmpName).create dir))

/-- A start state: no temporary path, working directory `/home/app`, no
command run yet. -/
def world0 : World :=
  { temps := [], cwd := str "/home/app", cmds := [], created := [], removals := [] }

/-- A source that delivers the bytes 1, 2, 3, 4: three bytes, an empty read,
then one byte together with `io.EOF`. -/
def goodSource : Reader := [⟨[1, 2, 3], none⟩, ⟨[], none⟩, ⟨[4], some .EOF⟩]

/-- Surroundings in which everything succeeds. -/
def goodEnv : Env :=
  { getURL := fun _ => .ok goodSource
    TempFile := fun _ => .ok (str "/tmp/stretcher1", acceptAll)
    TempDir := fun _ => .ok (str "/tmp/stretcher_src2")
    Getwd := fun _ => none
    Chdir := fun _ _ => none
    Command := fun _ _ _ => none
    Remove := fun _ _ => none
    RemoveAll := fun _ _ => none }

/-- Surroundings in which the source fails in its first `Read`. -/
def brokenEnv : Env :=
  { goodEnv with getURL := fun _ => .ok brokenSource }

/-- Surroundings in which `tar` exits with an error. -/
def tarFailsEnv : Env :=
  { goodEnv with
    Command := fun _ name _ => if name = str "tar" then some (.external 2) else none }

/-- Surroundings in which `rsync` exits with an error. -/
def rsyncFailsEnv : Env :=
  { goodEnv with
    Command := fun _ name _ => if name = str "rsync" then some (.external 23) else none }

/-- Surroundings in which the shell command `false` exits with an error. -/
def falseFailsEnv : Env :=
  { goodEnv with
    Command := fun _ _ args => if args = shArgs (str "false") then some (.external 1) else none }

/-- A manifest whose checksum is the digest `toyLib` gives the bytes 1, 2, 3, 4
under the 32-character algorithm, written in upper case: `B5B5...B5`. -/
def manifestOK : Manifest :=
  { Src := str "file:///tmp/a.tar", CheckSum := (List.replicate 16 [66, 53]).flatten,
    Dest := str "/srv/app", Commands := { Pre := [str "true"], Post := [str "date"] } }

/-- The manifest `manifestOK` with an empty checksum. -/
def manifestNoSum : Manifest := { manifestOK with CheckSum := [] }

/-- The manifest `manifestOK` with a checksum of 31 characters. -/
def manifest31 : Manifest := { manifestOK with CheckSum := List.replicate 31 97 }

/-- The manifest `manifestOK` with three pre-deploy commands, the second of
which is `false`. -/
def manifestPreFails : Manifest :=
  { manifestOK with Commands := { Pre := [str "true", str "false", str "never"], Post := [str "date"] } }

/-- Surroundings in which everything succeeds except `os.RemoveAll`, which
returns an error, as it does for a tree that holds a directory without write
permission. -/
def removeAllFailsEnv : Env :=
  { goodEnv with RemoveAll := fun _ _ => some (.external 13) }

/-! ## Hexadecimal digits and `newHash` -/

theorem hexDigit_mem (n : Nat) : hexDigit n ∈ ldigits := by
  unfold hexDigit
  by_cases h : n < ldigits.length
  · rw [List.getD_eq_getElem _ _ h]; exact List.getElem_mem _
  · rw [List.getD_eq_default _ _ (by omega)]; decide

theorem sprintfHex_mem (bs : List Byte) : ∀ c ∈ sprintfHex bs, c ∈ ldigits := by
  induction bs with
  | nil => intro c hc; simp [sprintfHex] at hc
  | cons b bs ih =>
    intro c hc
    simp only [sprintfHex, List.mem_cons] at hc
    rcases hc with h | h | h
    · rw [h]; exact hexDigit_mem _
    · rw [h]; exact hexDigit_mem _
    · exact ih c h

theorem sprintfHex_length (bs : List Byte) : (sprintfHex bs).length = 2 * bs.length := by
  induction bs with
  | nil => rfl
  | cons b bs ih => simp only [sprintfHex, List.length_cons, ih]; omega

theorem lowerByte_ldigits : ∀ c ∈ ldigits, lowerByte c = c := by decide

theorem newHash_ok_iff (m : Manifest) :
    (∃ h, newHash m = .ok h) ↔
      (m.CheckSum.length = 32 ∨ m.CheckSum.length = 40 ∨ m.CheckSum.length = 64 ∨
        m.CheckSum.length = 128) := by
  unfold newHash
  constructor
  · intro ⟨h, hh⟩
    split at hh <;> simp_all
  · intro h
    rcases h with h | h | h | h <;> simp [h]

theorem newHash_error (m : Manifest) (h32 : m.CheckSum.length ≠ 32)
    (h40 : m.CheckSum.length ≠ 40) (h64 : m.CheckSum.length ≠ 64)
    (h128 : m.CheckSum.length ≠ 128) : newHash m = .error .unsupportedChecksum := by
  unfold newHash
  split <;> simp_all

theorem destBytes_append (a b : List IOEvent) :
    destBytes (a ++ b) = destBytes a ++ destBytes b := by
  induction a with
  | nil => rfl
  | cons e es ih =>
    cases e with
    | read r => simpa [destBytes] using ih
    | write p r => simp [destBytes, ih]

theorem writeChunk_accept (dst : Writer) (hd : AcceptsAll dst) (p : List Byte) (st : CopyState) :
    writeChunk dst p st =
      ({ h := st.h.WriteString p, written := st.written + p.length, err := st.err,
         io := st.io ++ [.write p ⟨(p.length : Int), none⟩] }, false) := by
  unfold writeChunk
  simp only [hd (writesOf st.io) p]
  by_cases hp : (p.length : Int) > 0
  · simp [hp]
  · have : p.length = 0 := by omega
    simp [this]

theorem copyLoop_step_accept (dst : Writer) (hd : AcceptsAll dst) (c : List Byte)
    (rest : Reader) (st : CopyState) :
    copyLoop dst (⟨c, none⟩ :: rest) st =
      copyLoop dst rest
        { h := st.h.WriteString c, written := st.written + c.length, err := st.err,
          io := st.io ++ .read ⟨c, none⟩ :: (if c.length > 0 then [.write c ⟨(c.length : Int), none⟩] else []) } := by
  rw [copyLoop]
  by_cases hc : c.length > 0
  · simp [hc, writeChunk_accept dst hd, checkReadErr]
  · have h0 : c = [] := by
      cases c with
      | nil => rfl
      | cons x xs => simp at hc
    subst h0
    simp [checkReadErr, Hash.WriteString]

theorem copyLoop_last_accept (dst : Writer) (hd : AcceptsAll dst) (c : List Byte)
    (st : CopyState) :
    copyLoop dst [⟨c, some .EOF⟩] st =
        { h := st.h.WriteString c, written := st.written + c.length, err := st.err,
          io := st.io ++ .read ⟨c, some .EOF⟩ :: (if c.length > 0 then [.write c ⟨(c.length : Int), none⟩] else []) } := by
  rw [copyLoop]
  by_cases hc : c.length > 0
  · simp [hc, writeChunk_accept dst hd, checkReadErr]
  · have h0 : c = [] := by
      cases c with
      | nil => rfl
      | cons x xs => simp at hc
    subst h0
    simp [checkReadErr, Hash.WriteString]

theorem destBytes_chunk (c : List Byte) (r : ReadResult) :
    destBytes (.read r :: (if c.length > 0 then [.write c ⟨(c.length : Int), none⟩] else [])) = c := by
  by_cases hc : c.length > 0
  · simp [hc, destBytes]
  · have h0 : c = [] := by
      cases c with
      | nil => rfl
      | cons x xs => simp at hc
    subst h0
    simp [destBytes]

theorem copyLoop_accept (dst : Writer) (hd : AcceptsAll dst) (last : List Byte) :
    ∀ (chunks : List (List Byte)) (st : CopyState),
      let st' := copyLoop dst (chunks.map (fun c => ⟨c, none⟩) ++ [⟨last, some .EOF⟩]) st
      st'.h = ⟨st.h.alg, st.h.fed ++ (chunks.flatten ++ last)⟩ ∧
      st'.written = st.written + ((chunks.flatten ++ last).length : Int) ∧
      st'.err = st.err ∧
      destBytes st'.io = destBytes st.io ++ (chunks.flatten ++ last) := by
  intro chunks
  induction chunks with
  | nil =>
    intro st
    simp only [List.map_nil, List.nil_append, List.flatten_nil]
    rw [copyLoop_last_accept dst hd]
    refine ⟨rfl, rfl, rfl, ?_⟩
    rw [destBytes_append, destBytes_chunk]
  | cons c cs ih =>
    intro st
    simp only [List.map_cons, List.cons_append, List.flatten_cons]
    rw [copyLoop_step_accept dst hd]
    have := ih ⟨st.h.WriteString c, st.written + c.length, st.err,
      st.io ++ .read ⟨c, none⟩ :: (if c.length > 0 then [.write c ⟨(c.length : Int), none⟩] else [])⟩
    simp only at this
    obtain ⟨h1, h2, h3, h4⟩ := this
    refine ⟨?_, ?_, h3, ?_⟩
    · rw [h1]; simp [Hash.WriteString]
    · rw [h2]; simp only [List.length_append, Nat.cast_add]; omega
    · rw [h4, destBytes_append, destBytes_chunk]; simp

theorem writeChunk_spec (dst : Writer) (p : List Byte) (st : CopyState) :
    ∃ wr, (writeChunk dst p st).1.io = st.io ++ [.write p wr] ∧
      (writeChunk dst p st).1.h = ⟨st.h.alg, st.h.fed ++ p⟩ ∧
      ((breakError (.write p wr) = none ∧ (writeChunk dst p st).2 = false ∧
          (writeChunk dst p st).1.err = st.err) ∨
       (∃ e, breakError (.write p wr) = some e ∧ (writeChunk dst p st).2 = true ∧
          (writeChunk dst p st).1.err = some e)) := by
  refine ⟨dst (writesOf st.io) p, ?_⟩
  unfold writeChunk
  simp only [breakError]
  cases hr : (dst (writesOf st.io) p).err with
  | some ew => simp [Hash.WriteString]
  | none =>
    by_cases hn : (p.length : Int) ≠ (dst (writesOf st.io) p).nw
    · simp [hn, Hash.WriteString]
    · simp [hn, Hash.WriteString]

theorem checkReadErr_spec (er : Option Error) (st : CopyState) :
    (checkReadErr er st).1.io = st.io ∧ (checkReadErr er st).1.h = st.h ∧
    ((er = none ∧ (checkReadErr er st).2 = false ∧ (checkReadErr er st).1 = st) ∨
     (er = some .EOF ∧ (checkReadErr er st).2 = true ∧ (checkReadErr er st).1.err = st.err) ∨
     (∃ e, er = some e ∧ e ≠ .EOF ∧ (checkReadErr er st).2 = true ∧
        (checkReadErr er st).1.err = some e)) := by
  cases er with
  | none => simp [checkReadErr]
  | some e => cases e <;> simp [checkReadErr]

theorem copyLoop_shape (dst : Writer) :
    ∀ (src : Reader) (st : CopyState),
      ∃ good fin, (copyLoop dst src st).io = st.io ++ (good ++ fin) ∧
        (∀ e ∈ good, breakError e = none) ∧
        FinalShape fin st.err (copyLoop dst src st).err ∧
        (copyLoop dst src st).h = ⟨st.h.alg, st.h.fed ++ readBytes (good ++ fin)⟩ := by
  intro src
  induction src with
  | nil =>
    intro st
    refine ⟨[], [.read ⟨[], some .EOF⟩], ?_, ?_, ?_, ?_⟩
    · simp [copyLoop]
    · simp
    · left; exact ⟨⟨[], some .EOF⟩, rfl, rfl, Or.inl ⟨rfl, by simp [copyLoop]⟩⟩
    · simp [copyLoop, readBytes]
  | cons r rest ih =>
    intro st
    rw [copyLoop]
    by_cases hd : r.data.length > 0
    · have hne : r.data ≠ [] := by
        intro h; rw [h] at hd; simp at hd
      simp only [hd, if_true]
      obtain ⟨wr, hio, hh, hcase⟩ := writeChunk_spec dst r.data { st with io := st.io ++ [.read r] }
      rcases hcase with ⟨hb, hbrk, herr⟩ | ⟨e, hb, hbrk, herr⟩
      · -- the write went through
        obtain ⟨cio, ch, ccase⟩ := checkReadErr_spec r.err
          (writeChunk dst r.data { st with io := st.io ++ [.read r] }).1
        rcases ccase with ⟨hn, hstop, hst⟩ | ⟨hn, hstop, hst⟩ | ⟨e, hn, hne2, hstop, hst⟩
        · obtain ⟨good, fin, i1, i2, i3, i4⟩ := ih
            (writeChunk dst r.data { st with io := st.io ++ [.read r] }).1
          refine ⟨.read r :: .write r.data wr :: good, fin, ?_, ?_, ?_, ?_⟩
          · simp only [hbrk, hstop, hst]
            simp [i1, hio]
          · intro x hx
            simp only [List.mem_cons] at hx
            rcases hx with hx | hx | hx
            · subst hx; simp [breakError, hn]
            · subst hx; exact hb
            · exact i2 x hx
          · simp only [hbrk, hstop, hst]
            simpa [herr] using i3
          · simp only [hbrk, hstop, hst]
            simp [i4, hh, readBytes]
        · refine ⟨[], [.read r, .write r.data wr], ?_, ?_, ?_, ?_⟩
          · simp [hbrk, hstop, cio, hio]
          · simp
          · right; right
            refine ⟨r, wr, rfl, hne, hb, Or.inl ⟨hn, ?_⟩⟩
            simp [hbrk, hstop, hst, herr]
          · simp [hbrk, hstop, ch, hh, readBytes]
        · refine ⟨[], [.read r, .write r.data wr], ?_, ?_, ?_, ?_⟩
          · simp [hbrk, hstop, cio, hio]
          · simp
          · right; right
            refine ⟨r, wr, rfl, hne, hb, Or.inr ⟨e, hn, hne2, ?_⟩⟩
            simp [hbrk, hstop, hst]
          · simp [hbrk, hstop, ch, hh, readBytes]
      · refine ⟨[], [.read r, .write r.data wr], ?_, ?_, ?_, ?_⟩
        · simp [hbrk, hio]
        · simp
        · right; left
          exact ⟨r, wr, e, rfl, hne, hb, by simp [hbrk, herr]⟩
        · simp [hbrk, hh, readBytes]
    · have hnil : r.data = [] := by
        cases hr : r.data with
        | nil => rfl
        | cons x xs => rw [hr] at hd; simp at hd
      simp only [hd, if_false]
      obtain ⟨cio, ch, ccase⟩ := checkReadErr_spec r.err { st with io := st.io ++ [.read r] }
      rcases ccase with ⟨hn, hstop, hst⟩ | ⟨hn, hstop, hst⟩ | ⟨e, hn, hne2, hstop, hst⟩
      · obtain ⟨good, fin, i1, i2, i3, i4⟩ := ih { st with io := st.io ++ [.read r] }
        refine ⟨.read r :: good, fin, ?_, ?_, ?_, ?_⟩
        · simp [hstop, hst, i1]
        · intro x hx
          simp only [List.mem_cons] at hx
          rcases hx with hx | hx
          · subst hx; simp [breakError, hn]
          · exact i2 x hx
        · simpa [hstop, hst] using i3
        · simp [hstop, hst, i4, readBytes, hnil]
      · refine ⟨[], [.read r], ?_, ?_, ?_, ?_⟩
        · simp [hstop, cio]
        · simp
        · left
          exact ⟨r, rfl, hnil, Or.inl ⟨hn, by simp [hstop, hst]⟩⟩
        · simp [hstop, ch, readBytes, hnil]
      · refine ⟨[], [.read r], ?_, ?_, ?_, ?_⟩
        · simp [hstop, cio]
        · simp
        · left
          exact ⟨r, rfl, hnil, Or.inr ⟨e, hn, hne2, by simp [hstop, hst]⟩⟩
        · simp [hstop, ch, readBytes, hnil]

/-! ## The hashing copier: round trip -/

theorem newHash_alg (m : Manifest) (h : Hash) (hh : newHash m = .ok h) :
    algorithmOfLength m.CheckSum.length = some h.alg ∧ h.fed = [] := by
  unfold newHash at hh
  unfold algorithmOfLength
  split at hh <;> simp_all
  all_goals (cases hh; simp)

theorem digest_hex_length (lib : StdLib) (n : Nat) (a : Algorithm)
    (ha : algorithmOfLength n = some a) (x : List Byte) :
    (sprintfHex (lib.digest a x)).length = n := by
  rw [sprintfHex_length]
  unfold algorithmOfLength at ha
  split_ifs at ha with h1 h2 h3 h4
  · cases ha; rw [lib.md5_size, h1]
  · cases ha; rw [lib.sha1_size, h2]
  · cases ha; rw [lib.sha256_size, h3]
  · cases ha; rw [lib.sha512_size, h4]

/-- C3. Round trip of `copyAndCalcHash`: when the checksum length is 32, 40,
64 or 128, the reader delivers the byte sequence `S` as any list of chunks
with a nil error followed by a last chunk with `io.EOF` (chunks may be empty),
and the writer takes every chunk in full, the call returns a nil error,
`written = len(S)`, the destination received exactly `S`, and `sum` is the
lower-case hexadecimal form of the digest of `S` under the algorithm the
length selects; it depends on `S` only, not on the chunking. -/
theorem copyAndCalcHash_roundtrip (lib : StdLib) (m : Manifest) (dst : Writer)
    (chunks : List (List Byte)) (last : List Byte)
    (hlen : m.CheckSum.length = 32 ∨ m.CheckSum.length = 40 ∨ m.CheckSum.length = 64 ∨
      m.CheckSum.length = 128)
    (hdst : AcceptsAll dst) :
    (copyAndCalcHash lib m dst
        (chunks.map (fun c => ⟨c, none⟩) ++ [⟨last, some .EOF⟩])).err = none ∧
    (copyAndCalcHash lib m dst
        (chunks.map (fun c => ⟨c, none⟩) ++ [⟨last, some .EOF⟩])).written =
      ((chunks.flatten ++ last).length : Int) ∧
    destBytes (copyAndCalcHash lib m dst
        (chunks.map (fun c => ⟨c, none⟩) ++ [⟨last, some .EOF⟩])).io = chunks.flatten ++ last ∧
    (∃ a, algorithmOfLength m.CheckSum.length = some a ∧
      (copyAndCalcHash lib m dst
        (chunks.map (fun c => ⟨c, none⟩) ++ [⟨last, some .EOF⟩])).sum =
          sprintfHex (lib.digest a (chunks.flatten ++ last))) ∧
    (∀ c ∈ (copyAndCalcHash lib m dst
        (chunks.map (fun c => ⟨c, none⟩) ++ [⟨last, some .EOF⟩])).sum, c ∈ ldigits) := by
  obtain ⟨h, hh⟩ := (newHash_ok_iff m).mpr hlen
  obtain ⟨ha, hf⟩ := newHash_alg m h hh
  obtain ⟨l1, l2, l3, l4⟩ := copyLoop_accept dst hdst last chunks
    { h := h, written := 0, err := none, io := [] }
  simp only [copyAndCalcHash, hh]
  refine ⟨l3, ?_, ?_, ⟨h.alg, ha, ?_⟩, ?_⟩
  · rw [l2]; simp
  · rw [l4]; simp [destBytes]
  · simp only [Hash.Sum]
    rw [l1]; simp [hf]
  · exact sprintfHex_mem _

/-- Witness for C3: a 32-character checksum, the bytes 1, 2, 3, 4 delivered
as `[1,2,3]`, an empty read, then `[4]` with `io.EOF`. -/
theorem copyAndCalcHash_roundtrip_witness :
    (copyAndCalcHash toyLib manifest32 acceptAll
        ([[1, 2, 3], []].map (fun c => ⟨c, none⟩) ++ [⟨[4], some .EOF⟩])).err = none ∧
    (copyAndCalcHash toyLib manifest32 acceptAll
        ([[1, 2, 3], []].map (fun c => ⟨c, none⟩) ++ [⟨[4], some .EOF⟩])).written =
      (([[1, 2, 3], []].flatten ++ [4]).length : Int) ∧
    destBytes (copyAndCalcHash toyLib manifest32 acceptAll
        ([[1, 2, 3], []].map (fun c => ⟨c, none⟩) ++ [⟨[4], some .EOF⟩])).io =
      [[1, 2, 3], []].flatten ++ [4] ∧
    (∃ a, algorithmOfLength manifest32.CheckSum.length = some a ∧
      (copyAndCalcHash toyLib manifest32 acceptAll
        ([[1, 2, 3], []].map (fun c => ⟨c, none⟩) ++ [⟨[4], some .EOF⟩])).sum =
          sprintfHex (toyLib.digest a ([[1, 2, 3], []].flatten ++ [4]))) ∧
    (∀ c ∈ (copyAndCalcHash toyLib manifest32 acceptAll
        ([[1, 2, 3], []].map (fun c => ⟨c, none⟩) ++ [⟨[4], some .EOF⟩])).sum, c ∈ ldigits) :=
  copyAndCalcHash_roundtrip toyLib manifest32 acceptAll [[1, 2, 3], []] [4]
    (Or.inl (by decide)) (fun _ _ => rfl)

/-! ## The hashing copier: failing transfers -/

theorem shape_split (good fin a b : List IOEvent) (x : IOEvent) (e : Error)
    (hg : ∀ y ∈ good, breakError y = none) (hx : breakError x = some e)
    (hsplit : a ++ x :: b = good ++ fin) :
    ∃ c, fin = c ++ x :: b := by
  rcases List.append_eq_append_iff.mp hsplit with ⟨a', h1, h2⟩ | ⟨c', h1, h2⟩
  · cases a' with
    | nil => exact ⟨[], by simpa using h2.symm⟩
    | cons y ys =>
      simp only [List.cons_append, List.cons.injEq] at h2
      have hmem : x ∈ good := by rw [h1, h2.1]; simp
      rw [hg x hmem] at hx
      cases hx
  · exact ⟨c', h2⟩

/-- C9, as amended. For a supported checksum length and any reader and
writer: (1) a `Write` that returns an error or takes fewer bytes than given is
the last I/O call, and the call returns that error (`io.ErrShortWrite` for the
short write); (2) after a `Read` that returns an error other than `io.EOF`
there is no further `Read` and at most the one `Write` of the bytes that
`Read` delivered, and the call returns the error of that `Write` if it fails
and the error of the `Read` otherwise; (3) in every case the returned `sum`
is the hexadecimal digest of all the bytes read, a string as long as the
checksum. -/
theorem copyAndCalcHash_abort (lib : StdLib) (m : Manifest) (dst : Writer) (src : Reader)
    (hlen : m.CheckSum.length = 32 ∨ m.CheckSum.length = 40 ∨ m.CheckSum.length = 64 ∨
      m.CheckSum.length = 128) :
    (∀ a p wr b e, (copyAndCalcHash lib m dst src).io = a ++ .write p wr :: b →
      breakError (.write p wr) = some e →
        b = [] ∧ (copyAndCalcHash lib m dst src).err = some e) ∧
    (∀ a rr b e, (copyAndCalcHash lib m dst src).io = a ++ .read rr :: b →
      rr.err = some e → e ≠ .EOF →
        (rr.data = [] ∧ b = [] ∧ (copyAndCalcHash lib m dst src).err = some e) ∨
        (∃ wr, rr.data ≠ [] ∧ b = [.write rr.data wr] ∧
          (copyAndCalcHash lib m dst src).err =
            some ((breakError (.write rr.data wr)).getD e))) ∧
    (∃ a, algorithmOfLength m.CheckSum.length = some a ∧
      (copyAndCalcHash lib m dst src).sum =
        sprintfHex (lib.digest a (readBytes (copyAndCalcHash lib m dst src).io))) ∧
    (copyAndCalcHash lib m dst src).sum.length = m.CheckSum.length := by
  obtain ⟨h, hh⟩ := (newHash_ok_iff m).mpr hlen
  obtain ⟨ha, hf⟩ := newHash_alg m h hh
  obtain ⟨good, fin, hio, hgood, hfin, hhash⟩ := copyLoop_shape dst src
    { h := h, written := 0, err := none, io := [] }
  simp only [List.nil_append] at hio
  have hsum : (copyAndCalcHash lib m dst src).sum =
      sprintfHex (lib.digest h.alg (readBytes (copyAndCalcHash lib m dst src).io)) := by
    simp only [copyAndCalcHash, hh, Hash.Sum]
    rw [hhash, hio]; simp [hf]
  have hioc : (copyAndCalcHash lib m dst src).io = good ++ fin := by
    simp only [copyAndCalcHash, hh]; exact hio
  have herrc : (copyAndCalcHash lib m dst src).err =
      (copyLoop dst src { h := h, written := 0, err := none, io := [] }).err := by
    simp only [copyAndCalcHash, hh]
  rw [herrc, hioc]
  refine ⟨?_, ?_, ⟨h.alg, ha, ?_⟩, ?_⟩
  · intro a p wr b e hsplit hb
    obtain ⟨c, hc⟩ := shape_split good fin a b _ e hgood hb hsplit.symm
    rcases hfin with ⟨rr, hf1, -⟩ | ⟨rr, wr2, e2, hf1, -, hb2, he⟩ | ⟨rr, wr2, hf1, -, hb2, -⟩
    · rw [hf1] at hc
      cases c with
      | nil => simp at hc
      | cons y ys => cases ys <;> simp at hc
    · rw [hf1] at hc
      cases c with
      | nil => simp at hc
      | cons y ys =>
        cases ys with
        | nil =>
          simp only [List.cons_append, List.nil_append, List.cons.injEq, IOEvent.write.injEq] at hc
          obtain ⟨-, ⟨hp, hw⟩, hbn⟩ := hc
          subst hp; subst hw
          rw [hb] at hb2; cases hb2
          exact ⟨hbn.symm, he⟩
        | cons z zs => cases zs <;> simp at hc
    · rw [hf1] at hc
      cases c with
      | nil => simp at hc
      | cons y ys =>
        cases ys with
        | nil =>
          simp only [List.cons_append, List.nil_append, List.cons.injEq, IOEvent.write.injEq] at hc
          obtain ⟨-, ⟨hp, hw⟩, -⟩ := hc
          subst hp; subst hw
          rw [hb] at hb2; cases hb2
        | cons z zs => cases zs <;> simp at hc
  · intro a rr b e hsplit hre hne
    have hb : breakError (.read rr) = some e := by
      cases e <;> simp_all [breakError]
    obtain ⟨c, hc⟩ := shape_split good fin a b _ e hgood hb hsplit.symm
    rcases hfin with ⟨rr2, hf1, hd, hcase⟩ | ⟨rr2, wr2, e2, hf1, hd, hb2, he⟩ |
      ⟨rr2, wr2, hf1, hd, hb2, hcase⟩
    · rw [hf1] at hc
      cases c with
      | nil =>
        simp only [List.nil_append, List.cons.injEq, IOEvent.read.injEq] at hc
        obtain ⟨hr, hbn⟩ := hc
        subst hr
        left
        refine ⟨hd, hbn.symm, ?_⟩
        rcases hcase with ⟨h1, -⟩ | ⟨e3, h1, -, h3⟩
        · rw [hre] at h1; cases h1; exact absurd rfl hne
        · rw [hre] at h1; cases h1; exact h3
      | cons y ys => cases ys <;> simp at hc
    · rw [hf1] at hc
      cases c with
      | nil =>
        simp only [List.nil_append, List.cons.injEq, IOEvent.read.injEq] at hc
        obtain ⟨hr, hbn⟩ := hc
        subst hr
        right
        exact ⟨wr2, hd, hbn.symm, by rw [hb2]; exact he⟩
      | cons y ys =>
        cases ys with
        | nil => simp at hc
        | cons z zs => cases zs <;> simp at hc
    · rw [hf1] at hc
      cases c with
      | nil =>
        simp only [List.nil_append, List.cons.injEq, IOEvent.read.injEq] at hc
        obtain ⟨hr, hbn⟩ := hc
        subst hr
        right
        refine ⟨wr2, hd, hbn.symm, ?_⟩
        rw [hb2]
        rcases hcase with ⟨h1, -⟩ | ⟨e3, h1, -, h3⟩
        · rw [hre] at h1; cases h1; exact absurd rfl hne
        · rw [hre] at h1; cases h1; exact h3
      | cons y ys =>
        cases ys with
        | nil => simp at hc
        | cons z zs => cases zs <;> simp at hc
  · rw [← hioc]; exact hsum
  · rw [hsum]; exact digest_hex_length lib _ _ ha _

/-- Witness for C9: the 32-character checksum and a source whose only `Read`
returns three bytes and an error; the second part of the theorem at the split
of the I/O record after that `Read`. -/
theorem copyAndCalcHash_abort_witness :
    ((⟨[1, 2, 3], some (.external 7)⟩ : ReadResult).data = [] ∧
        [IOEvent.write [1, 2, 3] ⟨3, none⟩] = [] ∧
        (copyAndCalcHash toyLib manifest32 acceptAll brokenSource).err = some (.external 7)) ∨
      (∃ wr, (⟨[1, 2, 3], some (.external 7)⟩ : ReadResult).data ≠ [] ∧
        [IOEvent.write [1, 2, 3] ⟨3, none⟩] =
          [.write (⟨[1, 2, 3], some (.external 7)⟩ : ReadResult).data wr] ∧
        (copyAndCalcHash toyLib manifest32 acceptAll brokenSource).err =
          some ((breakError
            (.write (⟨[1, 2, 3], some (.external 7)⟩ : ReadResult).data wr)).getD (.external 7))) :=
  (copyAndCalcHash_abort toyLib manifest32 acceptAll brokenSource (Or.inl (by decide))).2.1
    [] ⟨[1, 2, 3], some (.external 7)⟩ [.write [1, 2, 3] ⟨3, none⟩] (.external 7)
    (by decide) rfl (by decide)

/-- C9, counterexample. With a 32-character checksum, a source whose only
`Read` returns the bytes 1, 2, 3 together with an error that is not `io.EOF`,
and a writer that takes everything: the call returns that error, a `Write` of
the three bytes follows the failing `Read`, and the returned `sum` is not
empty, it is the 32-digit hexadecimal digest of the three bytes. -/
theorem copyAndCalcHash_abort_counterexample :
    (copyAndCalcHash toyLib manifest32 acceptAll brokenSource).err = some (.external 7) ∧
    (copyAndCalcHash toyLib manifest32 acceptAll brokenSource).io =
      [.read ⟨[1, 2, 3], some (.external 7)⟩, .write [1, 2, 3] ⟨3, none⟩] ∧
    (copyAndCalcHash toyLib manifest32 acceptAll brokenSource).sum =
      sprintfHex (toyLib.digest .md5 [1, 2, 3]) ∧
    (copyAndCalcHash toyLib manifest32 acceptAll brokenSource).sum.length = 32 ∧
    (copyAndCalcHash toyLib manifest32 acceptAll brokenSource).sum ≠ [] := by
  decide

/-! ## The hook runner and the stages of `Deploy` -/

theorem ran_nil (w : World) : w.ran [] = w := by
  simp [World.ran]

theorem ran_ran (w : World) (a b : List Cmd) : (w.ran a).ran b = w.ran (a ++ b) := by
  simp [World.ran]

theorem invokeCommands_spec (env : Env) (stage : Stage) :
    ∀ (cmds : List GoString) (w : World),
      (allSucceed env stage cmds w ∧
        invokeCommands env stage cmds w = (none, w.ran (cmds.map (shCmd stage none)))) ∨
      (¬ allSucceed env stage cmds w ∧
        ∃ done comm rest e, cmds = done ++ comm :: rest ∧
          invokeCommands env stage cmds w =
            (some (.commandFailed comm e),
              w.ran (done.map (shCmd stage none) ++ [shCmd stage (some e) comm]))) := by
  intro cmds
  induction cmds with
  | nil =>
    intro w
    left
    exact ⟨trivial, by simp [invokeCommands, ran_nil]⟩
  | cons comm rest ih =>
    intro w
    cases hc : env.Command w (str "sh") (shArgs comm) with
    | some e =>
      right
      refine ⟨by simp [allSucceed, hc], [], comm, rest, e, rfl, ?_⟩
      simp [invokeCommands, runCommand, hc, shCmd]
    | none =>
      have hstep : invokeCommands env stage (comm :: rest) w =
          invokeCommands env stage rest (w.ran [shCmd stage none comm]) := by
        simp [invokeCommands, runCommand, hc, shCmd]
      rcases ih (w.ran [shCmd stage none comm]) with ⟨hall, hr⟩ | ⟨hnot, done, c2, rest2, e, hsplit, hr⟩
      · left
        refine ⟨⟨hc, hall⟩, ?_⟩
        rw [hstep, hr, ran_ran]; simp
      · right
        refine ⟨fun h => hnot h.2, comm :: done, c2, rest2, e, by simp [hsplit], ?_⟩
        rw [hstep, hr, ran_ran]; simp

theorem deployInDir_cases (env : Env) (m : Manifest) (tmpName dir : GoString) (w : World) :
    (¬ allSucceed env .pre m.Commands.Pre w ∧
      ∃ done comm rest e, m.Commands.Pre = done ++ comm :: rest ∧
        deployInDir env m tmpName dir w =
          (some (.commandFailed comm e),
            w.ran (done.map (shCmd .pre none) ++ [shCmd .pre (some e) comm]))) ∨
    (allSucceed env .pre m.Commands.Pre w ∧
      ((∃ e, env.Chdir (afterPre m w) dir = some e ∧
          deployInDir env m tmpName dir w = (some e, afterPre m w)) ∨
       (env.Chdir (afterPre m w) dir = none ∧
        ((∃ e, env.Command (inDir m dir w) (str "tar") (tarArgs tmpName) = some e ∧
            deployInDir env m tmpName dir w =
              (some e, (inDir m dir w).ran [tarCmd tmpName (some e)])) ∨
         (env.Command (inDir m dir w) (str "tar") (tarArgs tmpName) = none ∧
          ((∃ e, env.Command (afterTar m tmpName dir w) (str "rsync") (rsyncArgs m dir) = some e ∧
              deployInDir env m tmpName dir w =
                (some e, (inDir m dir w).ran [tarCmd tmpName none, rsyncCmd m dir (some e)])) ∨
           (env.Command (afterTar m tmpName dir w) (str "rsync") (rsyncArgs m dir) = none ∧
            ((∃ e, env.Chdir (afterRsync m tmpName dir w) (savedCwd env (afterPre m w)) = some e ∧
                deployInDir env m tmpName dir w = (some e, afterRsync m tmpName dir w)) ∨
             (env.Chdir (afterRsync m tmpName dir w) (savedCwd env (afterPre m w)) = none ∧
              deployInDir env m tmpName dir w =
                invokeCommands env .post m.Commands.Post (restored env m tmpName dir w)))))))))) := by
  rcases invokeCommands_spec env .pre m.Commands.Pre w with
    ⟨hall, hr⟩ | ⟨hnot, done, comm, rest, e, hsplit, hr⟩
  · right
    refine ⟨hall, ?_⟩
    unfold deployInDir InvokePreDeployCommands
    rw [hr]
    simp only
    have hw1 : w.ran (m.Commands.Pre.map (shCmd .pre none)) = afterPre m w := rfl
    rw [hw1]
    cases h1 : env.Chdir (afterPre m w) dir with
    | some e => left; exact ⟨e, rfl, rfl⟩
    | none =>
      right
      refine ⟨rfl, ?_⟩
      simp only [runCommand]
      have hw2 : (afterPre m w).chdir dir = inDir m dir w := rfl
      rw [hw2]
      cases h2 : env.Command (inDir m dir w) (str "tar") (tarArgs tmpName) with
      | some e => left; exact ⟨e, rfl, rfl⟩
      | none =>
        right
        refine ⟨rfl, ?_⟩
        simp only
        have hw3 : (inDir m dir w).ran [⟨.extract, str "tar", tarArgs tmpName, none⟩] =
            afterTar m tmpName dir w := rfl
        rw [hw3]
        cases h3 : env.Command (afterTar m tmpName dir w) (str "rsync") (rsyncArgs m dir) with
        | some e =>
          left
          refine ⟨e, rfl, ?_⟩
          simp [afterTar, ran_ran, rsyncCmd]
        | none =>
          right
          refine ⟨rfl, ?_⟩
          simp only
          have hw4 : (afterTar m tmpName dir w).ran [⟨.sync, str "rsync", rsyncArgs m dir, none⟩] =
              afterRsync m tmpName dir w := by
            simp [afterTar, afterRsync, ran_ran, rsyncCmd]
          rw [hw4]
          cases h4 : env.Chdir (afterRsync m tmpName dir w) (savedCwd env (afterPre m w)) with
          | some e => left; exact ⟨e, rfl, rfl⟩
          | none =>
            right
            refine ⟨rfl, ?_⟩
            simp only [InvokePostDeployCommands]
            have hw5 : (afterRsync m tmpName dir w).chdir (savedCwd env (afterPre m w)) =
                restored env m tmpName dir w := rfl
            rw [hw5]
            generalize invokeCommands env .post m.Commands.Post _ = r
            rcases r with ⟨_ | e, w6⟩ <;> rfl
  · left
    refine ⟨hnot, done, comm, rest, e, hsplit, ?_⟩
    unfold deployInDir InvokePreDeployCommands
    rw [hr]

@[simp] theorem create_cmds (w : World) (p : GoString) : (w.create p).cmds = w.cmds := rfl

@[simp] theorem create_cwd (w : World) (p : GoString) : (w.create p).cwd = w.cwd := rfl

@[simp] theorem create_temps (w : World) (p : GoString) :
    (w.create p).temps = w.temps ++ [p] := rfl

@[simp] theorem create_created (w : World) (p : GoString) :
    (w.create p).created = w.created ++ [p] := rfl

@[simp] theorem create_removals (w : World) (p : GoString) :
    (w.create p).removals = w.removals := rfl

@[simp] theorem removal_cmds (w : World) (p : GoString) (err : Option Error) :
    (w.removal p err).cmds = w.cmds := by
  cases err <;> rfl

@[simp] theorem removal_cwd (w : World) (p : GoString) (err : Option Error) :
    (w.removal p err).cwd = w.cwd := by
  cases err <;> rfl

@[simp] theorem removal_created (w : World) (p : GoString) (err : Option Error) :
    (w.removal p err).created = w.created := by
  cases err <;> rfl

@[simp] theorem removal_removals (w : World) (p : GoString) (err : Option Error) :
    (w.removal p err).removals = w.removals ++ [(p, err)] := by
  cases err <;> rfl

@[simp] theorem removal_temps_ok (w : World) (p : GoString) :
    (w.removal p none).temps = w.temps.filter (fun q => q ≠ p) := rfl

@[simp] theorem removal_temps_failed (w : World) (p : GoString) (e : Error) :
    (w.removal p (some e)).temps = w.temps := rfl

theorem removal_temps_subset (w : World) (p : GoString) (err : Option Error) :
    ∀ q ∈ (w.removal p err).temps, q ∈ w.temps := by
  intro q hq
  cases err with
  | none => exact (List.mem_filter.mp hq).1
  | some e => exact hq

@[simp] theorem Remove_cmds (env : Env) (p : GoString) (w : World) :
    (Remove env p w).cmds = w.cmds := by
  simp [Remove]

@[simp] theorem Remove_cwd (env : Env) (p : GoString) (w : World) :
    (Remove env p w).cwd = w.cwd := by
  simp [Remove]

@[simp] theorem Remove_created (env : Env) (p : GoString) (w : World) :
    (Remove env p w).created = w.created := by
  simp [Remove]

@[simp] theorem RemoveAll_cmds (env : Env) (p : GoString) (w : World) :
    (RemoveAll env p w).cmds = w.cmds := by
  simp [RemoveAll]

@[simp] theorem RemoveAll_cwd (env : Env) (p : GoString) (w : World) :
    (RemoveAll env p w).cwd = w.cwd := by
  simp [RemoveAll]

@[simp] theorem RemoveAll_created (env : Env) (p : GoString) (w : World) :
    (RemoveAll env p w).created = w.created := by
  simp [RemoveAll]

@[simp] theorem ran_cmds (w : World) (cs : List Cmd) : (w.ran cs).cmds = w.cmds ++ cs := rfl

@[simp] theorem ran_cwd (w : World) (cs : List Cmd) : (w.ran cs).cwd = w.cwd := rfl

@[simp] theorem ran_temps (w : World) (cs : List Cmd) : (w.ran cs).temps = w.temps := rfl

@[simp] theorem ran_created (w : World) (cs : List Cmd) : (w.ran cs).created = w.created := rfl

@[simp] theorem ran_removals (w : World) (cs : List Cmd) :
    (w.ran cs).removals = w.removals := rfl

@[simp] theorem chdir_cmds (w : World) (d : GoString) : (w.chdir d).cmds = w.cmds := rfl

@[simp] theorem chdir_cwd (w : World) (d : GoString) : (w.chdir d).cwd = d := rfl

@[simp] theorem chdir_temps (w : World) (d : GoString) : (w.chdir d).temps = w.temps := rfl

@[simp] theorem chdir_created (w : World) (d : GoString) : (w.chdir d).created = w.created := rfl

@[simp] theorem chdir_removals (w : World) (d : GoString) :
    (w.chdir d).removals = w.removals := rfl

theorem Deploy_cases (lib : StdLib) (env : Env) (m : Manifest) (w : World) :
    (∃ e, env.getURL m.Src = .error e ∧ Deploy lib env m w = (some (.getSrcFailed e), w)) ∨
    (∃ src, env.getURL m.Src = .ok src ∧
      ((∃ e, env.TempFile w = .error e ∧ Deploy lib env m w = (some e, w)) ∨
       (∃ tmpName tmp, env.TempFile w = .ok (tmpName, tmp) ∧
        ((∃ e, (copyAndCalcHash lib m tmp src).err = some e ∧
            Deploy lib env m w = (some e, Remove env tmpName (w.create tmpName))) ∨
         ((copyAndCalcHash lib m tmp src).err = none ∧
          ((m.CheckSum.length > 0 ∧
              (copyAndCalcHash lib m tmp src).sum ≠ ToLower lib m.CheckSum ∧
              Deploy lib env m w =
                (some (.checksumMismatch m.CheckSum (copyAndCalcHash lib m tmp src).sum),
                  Remove env tmpName (w.create tmpName))) ∨
           (¬ (m.CheckSum.length > 0 ∧
                (copyAndCalcHash lib m tmp src).sum ≠ ToLower lib m.CheckSum) ∧
            ((∃ e, env.TempDir (w.create tmpName) = .error e ∧
                Deploy lib env m w = (some e, Remove env tmpName (w.create tmpName))) ∨
             (∃ dir, env.TempDir (w.create tmpName) = .ok dir ∧
                Deploy lib env m w =
                  ((deployInDir env m tmpName dir ((w.create tmpName).create dir)).1,
                    Remove env tmpName (RemoveAll env dir
                      (deployInDir env m tmpName dir
                        ((w.create tmpName).create dir)).2))))))))))) := by
  unfold Deploy
  cases h1 : env.getURL m.Src with
  | error e => left; exact ⟨e, rfl, rfl⟩
  | ok src =>
    right
    refine ⟨src, rfl, ?_⟩
    cases h2 : env.TempFile w with
    | error e => left; exact ⟨e, rfl, rfl⟩
    | ok t =>
      obtain ⟨tmpName, tmp⟩ := t
      right
      refine ⟨tmpName, tmp, rfl, ?_⟩
      simp only [deployStaged]
      cases h3 : (copyAndCalcHash lib m tmp src).err with
      | some e => left; exact ⟨e, rfl, rfl⟩
      | none =>
        right
        refine ⟨rfl, ?_⟩
        simp only
        by_cases h4 : m.CheckSum.length > 0 ∧
            (copyAndCalcHash lib m tmp src).sum ≠ ToLower lib m.CheckSum
        · left
          refine ⟨h4.1, h4.2, ?_⟩
          rw [if_pos h4]
        · right
          refine ⟨h4, ?_⟩
          rw [if_neg h4]
          cases h5 : env.TempDir (w.create tmpName) with
          | error e => left; exact ⟨e, rfl, rfl⟩
          | ok dir => right; exact ⟨dir, rfl, rfl⟩

theorem deployInDir_frame (env : Env) (m : Manifest) (tmpName dir : GoString) (w : World) :
    (deployInDir env m tmpName dir w).2.temps = w.temps ∧
    (deployInDir env m tmpName dir w).2.created = w.created ∧
    (deployInDir env m tmpName dir w).2.removals = w.removals := by
  rcases deployInDir_cases env m tmpName dir w with
    ⟨-, _, _, _, _, -, h⟩ | ⟨-, ⟨_, -, h⟩ | ⟨-, ⟨_, -, h⟩ | ⟨-, ⟨_, -, h⟩ | ⟨-, ⟨_, -, h⟩ | ⟨-, h⟩⟩⟩⟩⟩
  · rw [h]; exact ⟨rfl, rfl, rfl⟩
  · rw [h]; exact ⟨rfl, rfl, rfl⟩
  · rw [h]; exact ⟨rfl, rfl, rfl⟩
  · rw [h]; exact ⟨rfl, rfl, rfl⟩
  · rw [h]; exact ⟨rfl, rfl, rfl⟩
  · rw [h]
    rcases invokeCommands_spec env .post m.Commands.Post (restored env m tmpName dir w) with
      ⟨-, hr⟩ | ⟨-, _, _, _, _, -, hr⟩
    · rw [hr]; exact ⟨rfl, rfl, rfl⟩
    · rw [hr]; exact ⟨rfl, rfl, rfl⟩

theorem map_shCmd_stage (stage : Stage) (err : Option Error) (l : List GoString) :
    ∀ c ∈ l.map (shCmd stage err), c.stage = stage ∧ c.err = err ∧ c.name = str "sh" := by
  intro c hc
  obtain ⟨x, -, rfl⟩ := List.mem_map.mp hc
  exact ⟨rfl, rfl, rfl⟩

/-- The external commands a run of `deployInDir` adds, in every case: the
pre-deploy commands up to the first failure, or all of them followed by
nothing (chdir failed), by a failed tar, or by tar, rsync and shell commands
of the post stage. -/
theorem deployInDir_trace (env : Env) (m : Manifest) (tmpName dir : GoString) (w : World) :
    (∃ done comm rest e, m.Commands.Pre = done ++ comm :: rest ∧
      (deployInDir env m tmpName dir w).1 = some (.commandFailed comm e) ∧
      (deployInDir env m tmpName dir w).2.cmds =
        w.cmds ++ (done.map (shCmd .pre none) ++ [shCmd .pre (some e) comm])) ∨
    ((deployInDir env m tmpName dir w).1 ≠ none ∧
      (deployInDir env m tmpName dir w).2.cmds = w.cmds ++ m.Commands.Pre.map (shCmd .pre none)) ∨
    (∃ e, (deployInDir env m tmpName dir w).1 = some e ∧
      (deployInDir env m tmpName dir w).2.cmds =
        w.cmds ++ (m.Commands.Pre.map (shCmd .pre none) ++ [tarCmd tmpName (some e)])) ∨
    (∃ e post, (∀ c ∈ post, c.stage = .post ∧ c.name = str "sh") ∧
      (deployInDir env m tmpName dir w).2.cmds =
        w.cmds ++ (m.Commands.Pre.map (shCmd .pre none) ++
          ([tarCmd tmpName none, rsyncCmd m dir e] ++ post))) := by
  rcases deployInDir_cases env m tmpName dir w with
    ⟨-, done, comm, rest, e, hs, h⟩ |
    ⟨-, ⟨e, -, h⟩ | ⟨-, ⟨e, -, h⟩ | ⟨-, ⟨e, -, h⟩ | ⟨-, ⟨e, -, h⟩ | ⟨-, h⟩⟩⟩⟩⟩
  · left
    exact ⟨done, comm, rest, e, hs, by rw [h], by rw [h]; rfl⟩
  · right; left
    rw [h]
    exact ⟨by simp, rfl⟩
  · right; right; left
    rw [h]
    exact ⟨e, rfl, by simp [inDir, afterPre]⟩
  · right; right; right
    rw [h]
    exact ⟨some e, [], by simp, by simp [inDir, afterPre]⟩
  · right; right; right
    rw [h]
    exact ⟨none, [], by simp, by simp [afterRsync, inDir, afterPre]⟩
  · right; right; right
    rw [h]
    rcases invokeCommands_spec env .post m.Commands.Post (restored env m tmpName dir w) with
      ⟨-, hr⟩ | ⟨-, done, comm, rest, e, -, hr⟩
    · rw [hr]
      refine ⟨none, m.Commands.Post.map (shCmd .post none), ?_, ?_⟩
      · intro c hc
        obtain ⟨a, b, d⟩ := map_shCmd_stage .post none _ c hc
        exact ⟨a, d⟩
      · simp [restored, afterRsync, inDir, afterPre]
    · rw [hr]
      refine ⟨none, done.map (shCmd .post none) ++ [shCmd .post (some e) comm], ?_, ?_⟩
      · intro c hc
        rcases List.mem_append.mp hc with hc | hc
        · obtain ⟨a, b, d⟩ := map_shCmd_stage .post none _ c hc
          exact ⟨a, d⟩
        · simp only [List.mem_singleton] at hc
          subst hc
          exact ⟨rfl, rfl⟩
      · simp [restored, afterRsync, inDir, afterPre]

/-- The external commands a run of `Deploy` adds: none when it stops before
the temporary directory exists, those of `deployInDir` otherwise. -/
theorem Deploy_trace (lib : StdLib) (env : Env) (m : Manifest) (w : World) :
    ((Deploy lib env m w).1 ≠ none ∧ (Deploy lib env m w).2.cmds = w.cmds) ∨
    (∃ src tmpName tmp dir, env.getURL m.Src = .ok src ∧
      env.TempFile w = .ok (tmpName, tmp) ∧
      (copyAndCalcHash lib m tmp src).err = none ∧
      ¬ (m.CheckSum.length > 0 ∧
        (copyAndCalcHash lib m tmp src).sum ≠ ToLower lib m.CheckSum) ∧
      env.TempDir (w.create tmpName) = .ok dir ∧
      (Deploy lib env m w).1 =
        (deployInDir env m tmpName dir ((w.create tmpName).create dir)).1 ∧
      (Deploy lib env m w).2.cmds =
        (deployInDir env m tmpName dir ((w.create tmpName).create dir)).2.cmds ∧
      (Deploy lib env m w).2.cwd =
        (deployInDir env m tmpName dir ((w.create tmpName).create dir)).2.cwd) := by
  rcases Deploy_cases lib env m w with ⟨e, -, hr⟩ | ⟨src, h1, h2⟩
  · left; rw [hr]; exact ⟨by simp, by simp⟩
  · rcases h2 with ⟨e, -, hr⟩ | ⟨t, tmp, h2, h3⟩
    · left; rw [hr]; exact ⟨by simp, by simp⟩
    · rcases h3 with ⟨e, -, hr⟩ | ⟨h3, ⟨-, -, hr⟩ | ⟨h4, ⟨e, -, hr⟩ | ⟨dir, h5, hr⟩⟩⟩
      · left; rw [hr]; exact ⟨by simp, by simp⟩
      · left; rw [hr]; exact ⟨by simp, by simp⟩
      · left; rw [hr]; exact ⟨by simp, by simp⟩
      · right
        exact ⟨src, t, tmp, dir, h1, h2, h3, h4, h5, by rw [hr], by rw [hr]; simp, by rw [hr]; simp⟩

theorem invokeCommands_appends (env : Env) (stage : Stage) (cmds : List GoString) (w : World) :
    ∃ new, (invokeCommands env stage cmds w).2.cmds = w.cmds ++ new := by
  rcases invokeCommands_spec env stage cmds w with ⟨-, hr⟩ | ⟨-, done, comm, rest, e, -, hr⟩
  · exact ⟨_, by rw [hr]; rfl⟩
  · exact ⟨_, by rw [hr]; rfl⟩

theorem Deploy_appends (lib : StdLib) (env : Env) (m : Manifest) (w : World) :
    ∃ new, (Deploy lib env m w).2.cmds = w.cmds ++ new := by
  rcases Deploy_trace lib env m w with ⟨-, h⟩ | ⟨src, t, tmp, dir, -, -, -, -, -, -, hcm, -⟩
  · exact ⟨[], by rw [h]; simp⟩
  · rw [hcm]
    rcases deployInDir_trace env m t dir ((w.create t).create dir) with
      ⟨done, comm, rest, e, -, -, h⟩ | ⟨-, h⟩ | ⟨e, -, h⟩ | ⟨e, post, -, h⟩
    · exact ⟨_, by rw [h]; rfl⟩
    · exact ⟨_, by rw [h]; rfl⟩
    · exact ⟨_, by rw [h]; rfl⟩
    · exact ⟨_, by rw [h]; rfl⟩

theorem indexByte_cases (c : Byte) (r : List Byte) :
    (r = [] ∧ indexByte c r = none) ∨
    (r.head? = some c ∧ indexByte c r = some 0) ∨
    (r ≠ [] ∧ r.head? ≠ some c ∧ (indexByte c r = none ∨ ∃ i, indexByte c r = some (i + 1))) := by
  cases r with
  | nil => left; exact ⟨rfl, rfl⟩
  | cons x xs =>
    by_cases hx : x = c
    · right; left
      simp [indexByte, hx]
    · right; right
      refine ⟨by simp, by simp [hx], ?_⟩
      simp only [indexByte, hx, if_false]
      cases indexByte c xs with
      | none => left; rfl
      | some i => right; exact ⟨i, rfl⟩

theorem LastIndex_eq_iff (s : GoString) (c : Byte) :
    LastIndex s c = (s.length : Int) - 1 ↔ (s = [] ∨ s.getLast? = some c) := by
  unfold LastIndex
  rw [List.getLast?_eq_head?_reverse]
  rcases indexByte_cases c s.reverse with ⟨h1, h2⟩ | ⟨h1, h2⟩ | ⟨h0, h1, h2 | ⟨i, h2⟩⟩
  · have hs : s = [] := List.reverse_eq_nil_iff.mp h1
    rw [h2]
    subst hs
    simp
  · rw [h2]
    simp [h1]
  · have hs : s ≠ [] := fun h => h0 (by rw [h]; rfl)
    have hl : 0 < s.length := List.length_pos.mpr hs
    rw [h2]
    simp only [hs, h1, or_self, iff_false]
    omega
  · have hs : s ≠ [] := fun h => h0 (by rw [h]; rfl)
    rw [h2]
    simp only [hs, h1, or_self, iff_false]
    push_cast
    omega

theorem rsyncTo_spec (m : Manifest) (hdest : m.Dest ≠ []) :
    (rsyncTo m).getLast? = some 47 ∧
    (m.Dest.getLast? = some 47 → rsyncTo m = m.Dest) ∧
    (m.Dest.getLast? ≠ some 47 → rsyncTo m = m.Dest ++ str "/") := by
  unfold rsyncTo
  by_cases h : m.Dest.getLast? = some 47
  · have hl : LastIndex m.Dest 47 = (m.Dest.length : Int) - 1 :=
      (LastIndex_eq_iff m.Dest 47).mpr (Or.inr h)
    simp [hl, h]
  · have hl : LastIndex m.Dest 47 ≠ (m.Dest.length : Int) - 1 := by
      intro hc
      rcases (LastIndex_eq_iff m.Dest 47).mp hc with h1 | h1
      · exact hdest h1
      · exact h h1
    simp only [hl, ne_eq, not_false_eq_true, if_true, h, false_implies, true_implies, and_true]
    have : str "/" = [47] := by decide
    rw [this, List.getLast?_concat]

theorem sum_lower (lib : StdLib) (m : Manifest) (dst : Writer) (src : Reader) :
    (copyAndCalcHash lib m dst src).sum.map lowerByte = (copyAndCalcHash lib m dst src).sum := by
  have hmem : ∀ c ∈ (copyAndCalcHash lib m dst src).sum, c ∈ ldigits := by
    unfold copyAndCalcHash
    cases newHash m with
    | error e => intro c hc; simp at hc
    | ok h => exact sprintfHex_mem _
  have h1 : (copyAndCalcHash lib m dst src).sum.map lowerByte =
      (copyAndCalcHash lib m dst src).sum.map id :=
    List.map_congr_left fun c hc => lowerByte_ldigits c (hmem c hc)
  rw [h1, List.map_id]

/-- For an empty `Dest` both sides of the test `LastIndex(to, "/") != len(to)-1`
are `-1`: nothing is appended and the destination argument stays empty. -/
theorem rsyncTo_empty_dest (m : Manifest) : rsyncTo { m with Dest := [] } = [] := by
  simp [rsyncTo, LastIndex, indexByte]

/-! ## Checksum verification -/

/-- C1, counterexample. The checksum is 32 characters long and differs from
the digest `copyAndCalcHash` computes, but the source fails in its first
`Read`: `Deploy` returns the error of the `Read`, not a checksum-mismatch
error. -/
theorem Deploy_mismatch_counterexample :
    manifest32.CheckSum.length = 32 ∧
    (copyAndCalcHash toyLib manifest32 acceptAll brokenSource).sum ≠
      ToLower toyLib manifest32.CheckSum ∧
    (Deploy toyLib brokenEnv manifest32 world0).1 = some (.external 7) ∧
    (Deploy toyLib brokenEnv manifest32 world0).1 ≠
      some (.checksumMismatch manifest32.CheckSum
        (copyAndCalcHash toyLib manifest32 acceptAll brokenSource).sum) := by
  decide

/-- C1, as amended. For a manifest with a checksum of length 32, 40, 64 or
128, a source that opened and a temporary file that was created: if the
digest computed by `copyAndCalcHash` differs from the lower-cased declared
checksum, no external command is run (no pre-deploy command, no tar, no rsync,
no post-deploy command) and `Deploy` returns an error, which is the
checksum-mismatch error carrying both values when `copyAndCalcHash` returned
no error, and the error of `copyAndCalcHash` otherwise. -/
theorem Deploy_mismatch (lib : StdLib) (env : Env) (m : Manifest) (w : World)
    (src : Reader) (tmpName : GoString) (tmp : Writer)
    (hlen : m.CheckSum.length = 32 ∨ m.CheckSum.length = 40 ∨ m.CheckSum.length = 64 ∨
      m.CheckSum.length = 128)
    (hsrc : env.getURL m.Src = .ok src)
    (htmp : env.TempFile w = .ok (tmpName, tmp))
    (hne : (copyAndCalcHash lib m tmp src).sum ≠ ToLower lib m.CheckSum) :
    (Deploy lib env m w).2.cmds = w.cmds ∧
    ((copyAndCalcHash lib m tmp src).err = none →
      (Deploy lib env m w).1 =
        some (.checksumMismatch m.CheckSum (copyAndCalcHash lib m tmp src).sum)) ∧
    (∀ e, (copyAndCalcHash lib m tmp src).err = some e → (Deploy lib env m w).1 = some e) := by
  have hpos : m.CheckSum.length > 0 := by omega
  rcases Deploy_cases lib env m w with ⟨e, h1, -⟩ | ⟨src2, h1, h2⟩
  · rw [hsrc] at h1; cases h1
  · rw [hsrc] at h1; cases h1
    rcases h2 with ⟨e, h2, -⟩ | ⟨t2, tmp2, h2, h3⟩
    · rw [htmp] at h2; cases h2
    · rw [htmp] at h2; cases h2
      rcases h3 with ⟨e, h3, hr⟩ | ⟨h3, ⟨-, -, hr⟩ | ⟨h4, -⟩⟩
      · rw [hr]
        refine ⟨by simp, ?_, ?_⟩
        · intro h; rw [h3] at h; cases h
        · intro e2 h; rw [h3] at h; cases h; rfl
      · rw [hr]
        refine ⟨by simp, fun _ => rfl, ?_⟩
        intro e2 h; rw [h3] at h; cases h
      · exact absurd ⟨hpos, hne⟩ h4

/-- Witness for C1: the 32-character checksum `aa...a` and a source that
delivers the bytes 1, 2, 3, 4. -/
theorem Deploy_mismatch_witness :
    (Deploy toyLib goodEnv manifest32 world0).2.cmds = world0.cmds ∧
    ((copyAndCalcHash toyLib manifest32 acceptAll goodSource).err = none →
      (Deploy toyLib goodEnv manifest32 world0).1 =
        some (.checksumMismatch manifest32.CheckSum
          (copyAndCalcHash toyLib manifest32 acceptAll goodSource).sum)) ∧
    (∀ e, (copyAndCalcHash toyLib manifest32 acceptAll goodSource).err = some e →
      (Deploy toyLib goodEnv manifest32 world0).1 = some e) :=
  Deploy_mismatch toyLib goodEnv manifest32 world0 goodSource (str "/tmp/stretcher1") acceptAll
    (Or.inl (by decide)) rfl rfl (by decide)

/-- C2, the code at the failing input. With an empty checksum `newHash`
takes its `default` branch: `copyAndCalcHash` returns `(0, "", error)` without
any I/O call, whatever the library, the writer and the source, and `Deploy`,
in surroundings where everything succeeds, returns that error and runs no
command, the pre-deploy command `true` included. -/
theorem Deploy_empty_checksum (lib : StdLib) (dst : Writer) (src : Reader) :
    newHash manifestNoSum = .error .unsupportedChecksum ∧
    copyAndCalcHash lib manifestNoSum dst src =
      { written := 0, sum := [], err := some .unsupportedChecksum, io := [] } ∧
    (Deploy lib goodEnv manifestNoSum world0).1 = some .unsupportedChecksum ∧
    (Deploy lib goodEnv manifestNoSum world0).2.cmds = [] :=
  ⟨rfl, rfl, rfl, rfl⟩

/-- C4. For a checksum whose length is greater than 0 and is not 32, 40, 64
or 128: `newHash` fails; `copyAndCalcHash` returns `(0, "", error)` with that
error and makes no `Read` and no `Write`, for every writer and source; and
`Deploy` returns an error without running any external command, the error
being that of `newHash` whenever the source opened and the temporary file was
created. -/
theorem Deploy_unsupported_checksum (lib : StdLib) (env : Env) (m : Manifest) (w : World)
    (_hpos : 0 < m.CheckSum.length)
    (h32 : m.CheckSum.length ≠ 32) (h40 : m.CheckSum.length ≠ 40)
    (h64 : m.CheckSum.length ≠ 64) (h128 : m.CheckSum.length ≠ 128) :
    newHash m = .error .unsupportedChecksum ∧
    (∀ dst src, copyAndCalcHash lib m dst src =
      { written := 0, sum := [], err := some .unsupportedChecksum, io := [] }) ∧
    (Deploy lib env m w).1 ≠ none ∧
    (Deploy lib env m w).2.cmds = w.cmds ∧
    (∀ src t, env.getURL m.Src = .ok src → env.TempFile w = .ok t →
      (Deploy lib env m w).1 = some .unsupportedChecksum) := by
  have hnew := newHash_error m h32 h40 h64 h128
  have hcopy : ∀ dst src, copyAndCalcHash lib m dst src =
      { written := 0, sum := [], err := some .unsupportedChecksum, io := [] } := by
    intro dst src
    simp only [copyAndCalcHash, hnew]
  refine ⟨hnew, hcopy, ?_⟩
  rcases Deploy_cases lib env m w with ⟨e, h1, hr⟩ | ⟨src2, h1, h2⟩
  · rw [hr]
    refine ⟨by simp, rfl, ?_⟩
    intro src t hs; rw [h1] at hs; cases hs
  · rcases h2 with ⟨e, h2, hr⟩ | ⟨t2, tmp2, h2, h3⟩
    · rw [hr]
      refine ⟨by simp, rfl, ?_⟩
      intro src t _ ht; rw [h2] at ht; cases ht
    · rcases h3 with ⟨e, h3, hr⟩ | ⟨h3, -⟩
      · rw [hr]
        rw [hcopy] at h3
        cases h3
        exact ⟨by simp, by simp, fun _ _ _ _ => rfl⟩
      · rw [hcopy] at h3; cases h3

/-- Witness for C4: a checksum of 31 characters. -/
theorem Deploy_unsupported_checksum_witness :
    newHash manifest31 = .error .unsupportedChecksum ∧
    (∀ dst src, copyAndCalcHash toyLib manifest31 dst src =
      { written := 0, sum := [], err := some .unsupportedChecksum, io := [] }) ∧
    (Deploy toyLib goodEnv manifest31 world0).1 ≠ none ∧
    (Deploy toyLib goodEnv manifest31 world0).2.cmds = world0.cmds ∧
    (∀ src t, goodEnv.getURL manifest31.Src = .ok src → goodEnv.TempFile world0 = .ok t →
      (Deploy toyLib goodEnv manifest31 world0).1 = some .unsupportedChecksum) :=
  Deploy_unsupported_checksum toyLib goodEnv manifest31 world0
    (by decide) (by decide) (by decide) (by decide) (by decide)

/-! ## Cleanup and working directory -/

theorem removal_mem (w : World) (p q : GoString) (err : Option Error)
    (hq : q ∈ (w.removal p err).temps) :
    q ∈ w.temps ∧ (q = p → ∃ e, err = some e) := by
  cases err with
  | none =>
    simp only [removal_temps_ok, List.mem_filter, decide_eq_true_eq] at hq
    exact ⟨hq.1, fun h => absurd h hq.2⟩
  | some e => exact ⟨hq, fun _ => ⟨e, rfl⟩⟩

theorem removal_not_mem (w : World) (p : GoString) : p ∉ (w.removal p none).temps := by
  simp [List.mem_filter]

/-- C5, counterexample. Every stage succeeds and `Deploy` returns nil, but
the deferred `os.RemoveAll` of the temporary directory returns an error, which
the deferred call drops: the temporary directory that `Deploy` created still
exists when `Deploy` returns. -/
theorem Deploy_cleanup_counterexample :
    (Deploy toyLib removeAllFailsEnv manifestOK world0).1 = none ∧
    (Deploy toyLib removeAllFailsEnv manifestOK world0).2.created =
      [str "/tmp/stretcher1", str "/tmp/stretcher_src2"] ∧
    (Deploy toyLib removeAllFailsEnv manifestOK world0).2.removals =
      [(str "/tmp/stretcher_src2", some (.external 13)), (str "/tmp/stretcher1", none)] ∧
    (Deploy toyLib removeAllFailsEnv manifestOK world0).2.temps = [str "/tmp/stretcher_src2"] ∧
    str "/tmp/stretcher_src2" ∈ (Deploy toyLib removeAllFailsEnv manifestOK world0).2.temps := by
  decide

/-- C5, as amended. Cleanup of `Deploy`, for every manifest and every
behaviour of the surroundings (any stage and any removal may succeed or
fail): when `Deploy` returns, with a nil or a non-nil error, it has called
`os.Remove` or `os.RemoveAll` once for each temporary path it created in the
run and for nothing else, in the reverse order of creation; a created path
whose removal call succeeded does not exist; a path that exists existed before
the run or is one whose removal call failed; and the temporary file and the
temporary directory count among the created paths as soon as they were
created. -/
theorem Deploy_cleanup (lib : StdLib) (env : Env) (m : Manifest) (w : World) :
    ∃ new rem, (Deploy lib env m w).2.created = w.created ++ new ∧
      (Deploy lib env m w).2.removals = w.removals ++ rem ∧
      rem.map Prod.fst = new.reverse ∧
      (∀ p, (p, none) ∈ rem → p ∉ (Deploy lib env m w).2.temps) ∧
      (∀ p ∈ (Deploy lib env m w).2.temps, p ∈ w.temps ∨ ∃ e, (p, some e) ∈ rem) ∧
      (∀ src tmpName tmp, env.getURL m.Src = .ok src → env.TempFile w = .ok (tmpName, tmp) →
        tmpName ∈ new) ∧
      (∀ src tmpName tmp dir, env.getURL m.Src = .ok src →
        env.TempFile w = .ok (tmpName, tmp) →
        (copyAndCalcHash lib m tmp src).err = none →
        (copyAndCalcHash lib m tmp src).sum = ToLower lib m.CheckSum →
        env.TempDir (w.create tmpName) = .ok dir → dir ∈ new) := by
  rcases Deploy_cases lib env m w with ⟨e, h1, hr⟩ | ⟨src2, h1, h2⟩
  · refine ⟨[], [], by rw [hr]; simp, by rw [hr]; simp, rfl, by simp, ?_, ?_, ?_⟩
    · intro p hp; rw [hr] at hp; exact Or.inl hp
    · intro src t tmp hs; rw [h1] at hs; cases hs
    · intro src t tmp dir hs; rw [h1] at hs; cases hs
  · rcases h2 with ⟨e, h2, hr⟩ | ⟨t2, tmp2, h2, h3⟩
    · refine ⟨[], [], by rw [hr]; simp, by rw [hr]; simp, rfl, by simp, ?_, ?_, ?_⟩
      · intro p hp; rw [hr] at hp; exact Or.inl hp
      · intro src t tmp _ ht; rw [h2] at ht; cases ht
      · intro src t tmp dir _ ht; rw [h2] at ht; cases ht
    · have hone : ∀ x, Deploy lib env m w = (x, Remove env t2 (w.create t2)) →
          (Deploy lib env m w).2.created = w.created ++ [t2] ∧
          (Deploy lib env m w).2.removals =
            w.removals ++ [(t2, env.Remove (w.create t2) t2)] ∧
          [(t2, env.Remove (w.create t2) t2)].map Prod.fst = [t2].reverse ∧
          (∀ p, (p, none) ∈ [(t2, env.Remove (w.create t2) t2)] →
            p ∉ (Deploy lib env m w).2.temps) ∧
          (∀ p ∈ (Deploy lib env m w).2.temps,
            p ∈ w.temps ∨ ∃ e, (p, some e) ∈ [(t2, env.Remove (w.create t2) t2)]) ∧
          (∀ src tmpName tmp, env.getURL m.Src = .ok src →
            env.TempFile w = .ok (tmpName, tmp) → tmpName ∈ [t2]) := by
        intro x hr
        rw [hr]
        refine ⟨by simp, by simp [Remove], rfl, ?_, ?_, ?_⟩
        · intro p hp
          simp only [List.mem_singleton, Prod.mk.injEq] at hp
          obtain ⟨hp1, hp2⟩ := hp
          subst hp1
          simp only [Remove, ← hp2]
          exact removal_not_mem _ _
        · intro p hp
          obtain ⟨hm, hf⟩ := removal_mem _ _ _ _ hp
          simp only [create_temps, List.mem_append, List.mem_singleton] at hm
          rcases hm with hm | hm
          · exact Or.inl hm
          · obtain ⟨e, he⟩ := hf hm
            right
            exact ⟨e, by simp [hm, he]⟩
        · intro src t tmp _ ht
          rw [h2] at ht; cases ht; simp
      rcases h3 with ⟨e, h3, hr⟩ | ⟨h3, ⟨h4, h5, hr⟩ | ⟨h4, ⟨e, h5, hr⟩ | ⟨dir, h5, hr⟩⟩⟩
      · obtain ⟨a, b, c, d, f, g⟩ := hone _ hr
        refine ⟨[t2], _, a, b, c, d, f, g, ?_⟩
        intro src t tmp dir hs ht hc
        rw [h1] at hs; cases hs; rw [h2] at ht; cases ht
        rw [h3] at hc; cases hc
      · obtain ⟨a, b, c, d, f, g⟩ := hone _ hr
        refine ⟨[t2], _, a, b, c, d, f, g, ?_⟩
        intro src t tmp dir hs ht _ hsum
        rw [h1] at hs; cases hs; rw [h2] at ht; cases ht
        exact absurd hsum h5
      · obtain ⟨a, b, c, d, f, g⟩ := hone _ hr
        refine ⟨[t2], _, a, b, c, d, f, g, ?_⟩
        intro src t tmp dir hs ht _ _ hd
        rw [h1] at hs; cases hs; rw [h2] at ht; cases ht
        rw [h5] at hd; cases hd
      · obtain ⟨f1, f2, f3⟩ := deployInDir_frame env m t2 dir ((w.create t2).create dir)
        generalize deployInDir env m t2 dir ((w.create t2).create dir) = r at hr f1 f2 f3
        obtain ⟨x, wd⟩ := r
        simp only at hr f1 f2 f3
        refine ⟨[t2, dir],
          [(dir, env.RemoveAll wd dir), (t2, env.Remove (RemoveAll env dir wd) t2)],
          ?_, ?_, rfl, ?_, ?_, ?_, ?_⟩
        · rw [hr]; simp [f2]
        · rw [hr]; simp [Remove, RemoveAll, f3]
        · intro p hp
          rw [hr]
          simp only [List.mem_cons, Prod.mk.injEq, List.mem_singleton, List.not_mem_nil,
            or_false] at hp
          rcases hp with ⟨hp1, hp2⟩ | ⟨hp1, hp2⟩
          · subst hp1
            intro hmem
            have h1m := removal_temps_subset _ _ _ _ hmem
            simp only [RemoveAll, ← hp2] at h1m
            exact removal_not_mem _ _ h1m
          · subst hp1
            simp only [Remove, ← hp2]
            exact removal_not_mem _ _
        · intro p hp
          rw [hr] at hp
          obtain ⟨hm1, hfa⟩ := removal_mem _ _ _ _ hp
          obtain ⟨hm2, hfb⟩ := removal_mem _ _ _ _ hm1
          rw [f1] at hm2
          simp only [create_temps, List.mem_append, List.mem_singleton] at hm2
          rcases hm2 with (hm | hm) | hm
          · exact Or.inl hm
          · obtain ⟨e, he⟩ := hfa hm
            right
            exact ⟨e, by simp [hm, he]⟩
          · obtain ⟨e, he⟩ := hfb hm
            right
            exact ⟨e, by simp [hm, he]⟩
        · intro src t tmp _ ht
          rw [h2] at ht; cases ht; simp
        · intro src t tmp dir2 hs ht _ _ hd
          rw [h1] at hs; cases hs; rw [h2] at ht; cases ht
          rw [h5] at hd; cases hd; simp

/-- C5 at a concrete run: tar fails, both removals succeed. The temporary
file and directory were created, each was removed once, the directory first,
and neither exists when `Deploy` returns its error. -/
theorem Deploy_cleanup_witness :
    (Deploy toyLib tarFailsEnv manifestOK world0).1 = some (.external 2) ∧
    (Deploy toyLib tarFailsEnv manifestOK world0).2.created =
      [str "/tmp/stretcher1", str "/tmp/stretcher_src2"] ∧
    (Deploy toyLib tarFailsEnv manifestOK world0).2.removals =
      [(str "/tmp/stretcher_src2", none), (str "/tmp/stretcher1", none)] ∧
    (Deploy toyLib tarFailsEnv manifestOK world0).2.temps = [] ∧
    ∃ new rem, (Deploy toyLib tarFailsEnv manifestOK world0).2.created = world0.created ++ new ∧
      (Deploy toyLib tarFailsEnv manifestOK world0).2.removals = world0.removals ++ rem ∧
      rem.map Prod.fst = new.reverse ∧
      (∀ p, (p, none) ∈ rem → p ∉ (Deploy toyLib tarFailsEnv manifestOK world0).2.temps) :=
  ⟨by decide, by decide, by decide, by decide,
    (Deploy_cleanup toyLib tarFailsEnv manifestOK world0).imp fun _ h =>
      h.imp fun _ g => ⟨g.1, g.2.1, g.2.2.1, g.2.2.2.1⟩⟩

/-- C6, the code on the two exit paths the claim names. When a run of
`Deploy` has changed the working directory to the temporary directory `dir`
and then tar fails, or tar succeeds and rsync fails, `Deploy` returns the
error at once: the working directory at return is `dir`, not the one at the
call, and `dir` exists no more when the deferred `os.RemoveAll(dir)`
succeeded. -/
theorem Deploy_cwd_after_failure (lib : StdLib) (env : Env) (m : Manifest) (w : World)
    (src : Reader) (tmpName : GoString) (tmp : Writer) (dir : GoString)
    (hsrc : env.getURL m.Src = .ok src)
    (htmp : env.TempFile w = .ok (tmpName, tmp))
    (hcopy : (copyAndCalcHash lib m tmp src).err = none)
    (hsum : (copyAndCalcHash lib m tmp src).sum = ToLower lib m.CheckSum)
    (hdir : env.TempDir (w.create tmpName) = .ok dir)
    (hpre : allSucceed env .pre m.Commands.Pre ((w.create tmpName).create dir))
    (hcd : env.Chdir (afterPre m ((w.create tmpName).create dir)) dir = none)
    (hfail : (∃ e, env.Command (inDir m dir ((w.create tmpName).create dir)) (str "tar")
          (tarArgs tmpName) = some e) ∨
      (env.Command (inDir m dir ((w.create tmpName).create dir)) (str "tar")
          (tarArgs tmpName) = none ∧
        ∃ e, env.Command (afterTar m tmpName dir ((w.create tmpName).create dir)) (str "rsync")
          (rsyncArgs m dir) = some e)) :
    (Deploy lib env m w).1 ≠ none ∧
    (Deploy lib env m w).2.cwd = dir ∧
    (env.RemoveAll (deployInDir env m tmpName dir ((w.create tmpName).create dir)).2 dir = none →
      dir ∉ (Deploy lib env m w).2.temps) := by
  rcases Deploy_cases lib env m w with ⟨e, h1, -⟩ | ⟨src2, h1, h2⟩
  · rw [hsrc] at h1; cases h1
  rw [hsrc] at h1; cases h1
  rcases h2 with ⟨e, h2, -⟩ | ⟨t2, tmp2, h2, h3⟩
  · rw [htmp] at h2; cases h2
  rw [htmp] at h2; cases h2
  rcases h3 with ⟨e, h3, -⟩ | ⟨-, ⟨-, h4, -⟩ | ⟨-, ⟨e, h5, -⟩ | ⟨dir2, h5, hr⟩⟩⟩
  · rw [hcopy] at h3; cases h3
  · exact absurd hsum h4
  · rw [hdir] at h5; cases h5
  rw [hdir] at h5; cases h5
  have hnot : env.RemoveAll (deployInDir env m tmpName dir
      ((w.create tmpName).create dir)).2 dir = none → dir ∉ (Deploy lib env m w).2.temps := by
    intro hrm hmem
    rw [hr] at hmem
    have hm := removal_temps_subset _ _ _ _ hmem
    simp only [RemoveAll, hrm] at hm
    exact removal_not_mem _ _ hm
  rcases deployInDir_cases env m tmpName dir ((w.create tmpName).create dir) with
    ⟨hn, -⟩ | ⟨-, ⟨e, c1, -⟩ | ⟨-, ⟨e, c2, hd⟩ | ⟨c2, ⟨e, c3, hd⟩ | ⟨c3, -⟩⟩⟩⟩
  · exact absurd hpre hn
  · rw [hcd] at c1; cases c1
  · refine ⟨?_, ?_, hnot⟩
    · rw [hr, hd]; simp
    · rw [hr, hd]; simp [inDir]
  · refine ⟨?_, ?_, hnot⟩
    · rw [hr, hd]; simp
    · rw [hr, hd]; simp [inDir]
  · rcases hfail with ⟨e, hf⟩ | ⟨-, e, hf⟩
    · rw [c2] at hf; cases hf
    · rw [c3] at hf; cases hf

/-- C6 at a concrete run: everything succeeds up to tar, which fails.
`Deploy` was called in `/home/app` and returns in the temporary directory,
which the deferred removal has taken away. -/
theorem Deploy_cwd_after_failure_witness :
    world0.cwd = str "/home/app" ∧
    (Deploy toyLib tarFailsEnv manifestOK world0).1 ≠ none ∧
    (Deploy toyLib tarFailsEnv manifestOK world0).2.cwd = str "/tmp/stretcher_src2" ∧
    str "/tmp/stretcher_src2" ∉ (Deploy toyLib tarFailsEnv manifestOK world0).2.temps :=
  ⟨rfl,
    (Deploy_cwd_after_failure toyLib tarFailsEnv manifestOK world0 goodSource
      (str "/tmp/stretcher1") acceptAll (str "/tmp/stretcher_src2") rfl rfl (by decide)
      (by decide) rfl ⟨rfl, trivial⟩ rfl (Or.inl ⟨.external 2, by decide⟩)).1,
    (Deploy_cwd_after_failure toyLib tarFailsEnv manifestOK world0 goodSource
      (str "/tmp/stretcher1") acceptAll (str "/tmp/stretcher_src2") rfl rfl (by decide)
      (by decide) rfl ⟨rfl, trivial⟩ rfl (Or.inl ⟨.external 2, by decide⟩)).2.1,
    (Deploy_cwd_after_failure toyLib tarFailsEnv manifestOK world0 goodSource
      (str "/tmp/stretcher1") acceptAll (str "/tmp/stretcher_src2") rfl rfl (by decide)
      (by decide) rfl ⟨rfl, trivial⟩ rfl (Or.inl ⟨.external 2, by decide⟩)).2.2 rfl⟩

/-! ## Hooks, success and the rsync arguments -/

/-- C7. Stop at the first failing command. In a run of `Deploy`, with any
manifest and any behaviour of the surroundings: if a pre-deploy command was
run and failed, then the external commands of the run are exactly the
pre-deploy commands before it, each once, in declared order and successful,
followed by the failing one; nothing comes after it (no later pre-deploy
command, no tar, no rsync, no post-deploy command) and `Deploy` returns a
non-nil error that names the command. `InvokePostDeployCommands` behaves in
the same way over the post list. -/
theorem Deploy_pre_failure (lib : StdLib) (env : Env) (m : Manifest) (w : World) :
    (∃ new, (Deploy lib env m w).2.cmds = w.cmds ++ new ∧
      ((∃ c ∈ new, c.stage = .pre ∧ c.err ≠ none) →
        ∃ done comm rest e, m.Commands.Pre = done ++ comm :: rest ∧
          new = done.map (shCmd .pre none) ++ [shCmd .pre (some e) comm] ∧
          (Deploy lib env m w).1 = some (.commandFailed comm e))) ∧
    (∃ new, (InvokePostDeployCommands env m w).2.cmds = w.cmds ++ new ∧
      ((∃ c ∈ new, c.err ≠ none) →
        ∃ done comm rest e, m.Commands.Post = done ++ comm :: rest ∧
          new = done.map (shCmd .post none) ++ [shCmd .post (some e) comm] ∧
          (InvokePostDeployCommands env m w).1 = some (.commandFailed comm e))) := by
  constructor
  · obtain ⟨new, hnew⟩ := Deploy_appends lib env m w
    refine ⟨new, hnew, ?_⟩
    rintro ⟨c, hc, hstage, herr⟩
    rcases Deploy_trace lib env m w with ⟨-, h⟩ | ⟨src, t, tmp, dir, -, -, -, -, -, he, hcm, -⟩
    · rw [h] at hnew
      have : new = [] := by simpa using hnew
      subst this
      simp at hc
    · rw [hcm] at hnew
      rw [he]
      rcases deployInDir_trace env m t dir ((w.create t).create dir) with
        ⟨done, comm, rest, e, hs, h1, h2⟩ | ⟨-, h2⟩ | ⟨e, -, h2⟩ | ⟨e, post, hp, h2⟩
      · rw [h2] at hnew
        simp only [create_cmds] at hnew
        have hn := List.append_cancel_left hnew
        exact ⟨done, comm, rest, e, hs, hn.symm, h1⟩
      · rw [h2] at hnew
        simp only [create_cmds] at hnew
        have hn := List.append_cancel_left hnew
        rw [← hn] at hc
        exact absurd (map_shCmd_stage .pre none _ c hc).2.1 herr
      · rw [h2] at hnew
        simp only [create_cmds] at hnew
        have hn := List.append_cancel_left hnew
        rw [← hn] at hc
        rcases List.mem_append.mp hc with hc | hc
        · exact absurd (map_shCmd_stage .pre none _ c hc).2.1 herr
        · simp only [List.mem_singleton] at hc
          subst hc
          cases hstage
      · rw [h2] at hnew
        simp only [create_cmds] at hnew
        have hn := List.append_cancel_left hnew
        rw [← hn] at hc
        rcases List.mem_append.mp hc with hc | hc
        · exact absurd (map_shCmd_stage .pre none _ c hc).2.1 herr
        · rcases List.mem_append.mp hc with hc | hc
          · simp only [List.mem_cons, List.mem_singleton, List.not_mem_nil, or_false] at hc
            rcases hc with hc | hc <;> (subst hc; cases hstage)
          · rw [(hp c hc).1] at hstage
            cases hstage
  · obtain ⟨new, hnew⟩ := invokeCommands_appends env .post m.Commands.Post w
    refine ⟨new, hnew, ?_⟩
    rintro ⟨c, hc, herr⟩
    unfold InvokePostDeployCommands
    rcases invokeCommands_spec env .post m.Commands.Post w with
      ⟨-, hr⟩ | ⟨-, done, comm, rest, e, hs, hr⟩
    · rw [hr] at hnew
      have hn := List.append_cancel_left hnew
      rw [← hn] at hc
      exact absurd (map_shCmd_stage .post none _ c hc).2.1 herr
    · rw [hr] at hnew ⊢
      have hn := List.append_cancel_left hnew
      exact ⟨done, comm, rest, e, hs, hn.symm, rfl⟩

/-- C7 at a concrete run: the pre-deploy commands are `true`, `false`,
`never`, and `false` fails. The run consists of `sh -c true` and
`sh -c false`, and `Deploy` returns the error of `false`. -/
theorem Deploy_pre_failure_witness :
    (Deploy toyLib falseFailsEnv manifestPreFails world0).2.cmds =
      [shCmd .pre none (str "true"), shCmd .pre (some (.external 1)) (str "false")] ∧
    (Deploy toyLib falseFailsEnv manifestPreFails world0).1 =
      some (.commandFailed (str "false") (.external 1)) ∧
    ∃ new, (Deploy toyLib falseFailsEnv manifestPreFails world0).2.cmds = world0.cmds ++ new ∧
      ((∃ c ∈ new, c.stage = .pre ∧ c.err ≠ none) →
        ∃ done comm rest e, manifestPreFails.Commands.Pre = done ++ comm :: rest ∧
          new = done.map (shCmd .pre none) ++ [shCmd .pre (some e) comm] ∧
          (Deploy toyLib falseFailsEnv manifestPreFails world0).1 =
            some (.commandFailed comm e)) :=
  ⟨by decide, by decide, (Deploy_pre_failure toyLib falseFailsEnv manifestPreFails world0).1⟩

/-- C8. `Deploy` never succeeds partially: for a checksum of length 32, 40,
64 or 128, `Deploy` returns nil exactly when every stage succeeded (source,
temporary file, copy, checksum, temporary directory, every pre-deploy command,
chdir, tar, rsync, chdir back, every post-deploy command), so a failure of
any one stage gives a non-nil error. The checksum stage compares the digest
with the lower-cased declared checksum; for an ASCII checksum this is equality
ignoring letter case, so an upper-case or mixed-case checksum of the right
value is accepted. -/
theorem Deploy_nil_iff (lib : StdLib) (env : Env) (m : Manifest) (w : World)
    (hlen : m.CheckSum.length = 32 ∨ m.CheckSum.length = 40 ∨ m.CheckSum.length = 64 ∨
      m.CheckSum.length = 128) :
    ((Deploy lib env m w).1 = none ↔ AllStagesSucceed lib env m w) ∧
    (∀ tmp src, isASCII m.CheckSum = true →
      ((copyAndCalcHash lib m tmp src).sum = ToLower lib m.CheckSum ↔
        equalFoldASCII m.CheckSum (copyAndCalcHash lib m tmp src).sum)) := by
  have hpos : m.CheckSum.length > 0 := by omega
  refine ⟨⟨?_, ?_⟩, ?_⟩
  · intro hnil
    rcases Deploy_cases lib env m w with ⟨e, -, hr⟩ | ⟨src, h1, h2⟩
    · rw [hr] at hnil; cases hnil
    rcases h2 with ⟨e, -, hr⟩ | ⟨t, tmp, h2, h3⟩
    · rw [hr] at hnil; cases hnil
    rcases h3 with ⟨e, -, hr⟩ | ⟨h3, ⟨-, -, hr⟩ | ⟨h4, ⟨e, -, hr⟩ | ⟨dir, h5, hr⟩⟩⟩
    · rw [hr] at hnil; cases hnil
    · rw [hr] at hnil; cases hnil
    · rw [hr] at hnil; cases hnil
    have hsum : (copyAndCalcHash lib m tmp src).sum = ToLower lib m.CheckSum := by
      by_contra hc
      exact h4 ⟨hpos, hc⟩
    rw [hr] at hnil
    simp only at hnil
    rcases deployInDir_cases env m t dir ((w.create t).create dir) with
      ⟨-, _, _, _, _, -, hd⟩ |
      ⟨c0, ⟨e, -, hd⟩ | ⟨c1, ⟨e, -, hd⟩ | ⟨c2, ⟨e, -, hd⟩ | ⟨c3, ⟨e, -, hd⟩ | ⟨c4, hd⟩⟩⟩⟩⟩
    · rw [hd] at hnil; cases hnil
    · rw [hd] at hnil; cases hnil
    · rw [hd] at hnil; cases hnil
    · rw [hd] at hnil; cases hnil
    · rw [hd] at hnil; cases hnil
    · rw [hd] at hnil
      rcases invokeCommands_spec env .post m.Commands.Post
          (restored env m t dir ((w.create t).create dir)) with
        ⟨c5, -⟩ | ⟨-, _, _, _, _, -, hp⟩
      · exact ⟨src, t, tmp, dir, h1, h2, h3, hsum, h5, c0, c1, c2, c3, c4, c5⟩
      · rw [hp] at hnil; cases hnil
  · rintro ⟨src, t, tmp, dir, a1, a2, a3, a4, a5, a6, a7, a8, a9, a10, a11⟩
    rcases Deploy_cases lib env m w with ⟨e, h1, -⟩ | ⟨src2, h1, h2⟩
    · rw [a1] at h1; cases h1
    rw [a1] at h1; cases h1
    rcases h2 with ⟨e, h2, -⟩ | ⟨t2, tmp2, h2, h3⟩
    · rw [a2] at h2; cases h2
    rw [a2] at h2; cases h2
    rcases h3 with ⟨e, h3, -⟩ | ⟨-, ⟨-, h4, -⟩ | ⟨-, ⟨e, h5, -⟩ | ⟨dir2, h5, hr⟩⟩⟩
    · rw [a3] at h3; cases h3
    · exact absurd a4 h4
    · rw [a5] at h5; cases h5
    rw [a5] at h5; cases h5
    rw [hr]
    simp only
    rcases deployInDir_cases env m t dir ((w.create t).create dir) with
      ⟨hn, -⟩ |
      ⟨-, ⟨e, c1, -⟩ | ⟨-, ⟨e, c2, -⟩ | ⟨-, ⟨e, c3, -⟩ | ⟨-, ⟨e, c4, -⟩ | ⟨-, hd⟩⟩⟩⟩⟩
    · exact absurd a6 hn
    · rw [a7] at c1; cases c1
    · rw [a8] at c2; cases c2
    · rw [a9] at c3; cases c3
    · rw [a10] at c4; cases c4
    · rw [hd]
      rcases invokeCommands_spec env .post m.Commands.Post
          (restored env m t dir ((w.create t).create dir)) with
        ⟨-, hp⟩ | ⟨hn, -⟩
      · rw [hp]
      · exact absurd a11 hn
  · intro tmp src hascii
    unfold equalFoldASCII ToLower
    rw [if_pos hascii, sum_lower]
    exact eq_comm

/-- C8 at a concrete run: the declared checksum is the upper-case form
`B5B5...B5` of the digest `b5b5...b5`, every stage succeeds, and `Deploy`
returns nil. -/
theorem Deploy_nil_iff_witness :
    (copyAndCalcHash toyLib manifestOK acceptAll goodSource).sum ≠ manifestOK.CheckSum ∧
    (Deploy toyLib goodEnv manifestOK world0).1 = none ∧
    AllStagesSucceed toyLib goodEnv manifestOK world0 :=
  ⟨by decide, by decide,
    (Deploy_nil_iff toyLib goodEnv manifestOK world0 (Or.inl (by decide))).1.mp (by decide)⟩

theorem filter_rsync_pre (stage : Stage) (err : Option Error) (l : List GoString) :
    (l.map (shCmd stage err)).filter (fun c => c.name = str "rsync") = [] := by
  rw [List.filter_eq_nil_iff]
  intro c hc
  rw [(map_shCmd_stage stage err l c hc).2.2]
  decide

/-- C10. Arguments of the synchronisation step: for a manifest with a
non-empty `Dest`, in every run of `Deploy` in which tar succeeded, rsync is
run exactly once, with the arguments `-av`, `--delete`, the temporary
directory followed by `/`, and `to`; `to` ends in `/`, it is `Dest` when
`Dest` ends in `/` and `Dest` followed by `/` otherwise, so that normalising
twice is the same as normalising once. -/
theorem Deploy_rsync_args (lib : StdLib) (env : Env) (m : Manifest) (w : World)
    (hdest : m.Dest ≠ []) :
    (∃ new, (Deploy lib env m w).2.cmds = w.cmds ++ new ∧
      ((∃ c ∈ new, c.stage = .extract ∧ c.err = none) →
        ∃ tmpName tmp dir e, env.TempFile w = .ok (tmpName, tmp) ∧
          env.TempDir (w.create tmpName) = .ok dir ∧
          new.filter (fun c => c.name = str "rsync") =
            [⟨.sync, str "rsync", [str "-av", str "--delete", dir ++ str "/", rsyncTo m], e⟩])) ∧
    (rsyncTo m).getLast? = some 47 ∧
    (m.Dest.getLast? = some 47 → rsyncTo m = m.Dest) ∧
    (m.Dest.getLast? ≠ some 47 → rsyncTo m = m.Dest ++ str "/") ∧
    rsyncTo { m with Dest := rsyncTo m } = rsyncTo m := by
  obtain ⟨s1, s2, s3⟩ := rsyncTo_spec m hdest
  refine ⟨?_, s1, s2, s3, ?_⟩
  · obtain ⟨new, hnew⟩ := Deploy_appends lib env m w
    refine ⟨new, hnew, ?_⟩
    rintro ⟨c, hc, hstage, herr⟩
    rcases Deploy_trace lib env m w with ⟨-, h⟩ | ⟨src, t, tmp, dir, -, h2, -, -, h5, -, hcm, -⟩
    · rw [h] at hnew
      have : new = [] := by simpa using hnew
      subst this
      simp at hc
    · rw [hcm] at hnew
      rcases deployInDir_trace env m t dir ((w.create t).create dir) with
        ⟨done, comm, rest, e, -, -, h⟩ | ⟨-, h⟩ | ⟨e, -, h⟩ | ⟨e, post, hp, h⟩
      · rw [h] at hnew
        simp only [create_cmds] at hnew
        have hn := List.append_cancel_left hnew
        rw [← hn] at hc
        rcases List.mem_append.mp hc with hc | hc
        · rw [(map_shCmd_stage .pre none _ c hc).1] at hstage; cases hstage
        · simp only [List.mem_singleton] at hc
          subst hc
          cases hstage
      · rw [h] at hnew
        simp only [create_cmds] at hnew
        have hn := List.append_cancel_left hnew
        rw [← hn] at hc
        rw [(map_shCmd_stage .pre none _ c hc).1] at hstage; cases hstage
      · rw [h] at hnew
        simp only [create_cmds] at hnew
        have hn := List.append_cancel_left hnew
        rw [← hn] at hc
        rcases List.mem_append.mp hc with hc | hc
        · rw [(map_shCmd_stage .pre none _ c hc).1] at hstage; cases hstage
        · simp only [List.mem_singleton] at hc
          subst hc
          cases herr
      · rw [h] at hnew
        simp only [create_cmds] at hnew
        have hn := List.append_cancel_left hnew
        refine ⟨t, tmp, dir, e, h2, h5, ?_⟩
        rw [← hn, List.filter_append, filter_rsync_pre, List.filter_append]
        have hpost : post.filter (fun c => c.name = str "rsync") = [] := by
          rw [List.filter_eq_nil_iff]
          intro x hx
          rw [(hp x hx).2]
          decide
        rw [hpost]
        have htarname : (tarCmd t none).name ≠ str "rsync" := by
          show str "tar" ≠ str "rsync"
          decide
        have hrsname : (rsyncCmd m dir e).name = str "rsync" := rfl
        simp only [List.filter_cons, htarname, hrsname, decide_True, decide_False,
          List.filter_nil, List.nil_append, List.append_nil, if_true, if_false]
        rfl
  · have hd2 : rsyncTo m ≠ [] := by
      intro h; rw [h] at s1; cases s1
    exact (rsyncTo_spec { m with Dest := rsyncTo m } hd2).2.1 s1

/-- C10 at a concrete run: `Dest` is `/srv/app`, every stage succeeds, and
rsync is run once from `/tmp/stretcher_src2/` to `/srv/app/`; the destination
`/srv/app/` stays as it is. -/
theorem Deploy_rsync_args_witness :
    (Deploy toyLib goodEnv manifestOK world0).2.cmds.filter (fun c => c.name = str "rsync") =
      [⟨.sync, str "rsync",
        [str "-av", str "--delete", str "/tmp/stretcher_src2/", str "/srv/app/"], none⟩] ∧
    rsyncTo { manifestOK with Dest := str "/srv/app/" } = str "/srv/app/" ∧
    rsyncTo manifestOK = str "/srv/app/" ∧
    (rsyncTo manifestOK).getLast? = some 47 ∧
    (manifestOK.Dest.getLast? ≠ some 47 → rsyncTo manifestOK = manifestOK.Dest ++ str "/") :=
  ⟨by decide, by decide, by decide,
    (Deploy_rsync_args toyLib goodEnv manifestOK world0 (by decide)).2.1,
    (Deploy_rsync_args toyLib goodEnv manifestOK world0 (by decide)).2.2.2.1⟩

end Stretcher
